import Mathlib

/-!
Verification development for the mafiacitypoker server (`src/server.py`).

The game core is shallowly embedded: the hand evaluator (`eval_strict`,
`straight_high`), the per-room state (`Room`) and every state-mutating
websocket action (`deal`, `deal_all`, `add_manual`, `clear_hand`,
`remove_selected`, `play_selected`, `end_round_vote`, `end_round_force`,
join and disconnect), together with the round resolver (`resolve_round`,
`maybe_finish_round`).  Machine ints are modelled as `Nat`/`Int`, Python
dicts as association lists or explicit functions, Python sets as
duplicate-free lists, and raising code as `Except`-style results.
-/

namespace MCP

/-- The 13 card ranks ("2".."9","T","J","Q","K","A" in the source). -/
inductive Rank where
  | r2 | r3 | r4 | r5 | r6 | r7 | r8 | r9 | rT | rJ | rQ | rK | rA
deriving DecidableEq, Repr, Inhabited

/-- The 4 suits ("♣","♦","♥","♠" in the source). -/
inductive Suit where
  | clubs | diamonds | hearts | spades
deriving DecidableEq, Repr, Inhabited

/-- `RANK_VALUE`: rank → 2..14 (enumerate RANKS starting at 2). -/
def rankValue : Rank → Nat
  | .r2 => 2 | .r3 => 3 | .r4 => 4 | .r5 => 5 | .r6 => 6 | .r7 => 7 | .r8 => 8
  | .r9 => 9 | .rT => 10 | .rJ => 11 | .rQ => 12 | .rK => 13 | .rA => 14

/-- `RANKS` in source order. -/
def RANKS : List Rank :=
  [.r2, .r3, .r4, .r5, .r6, .r7, .r8, .r9, .rT, .rJ, .rQ, .rK, .rA]

/-- `SUITS` in source order. -/
def SUITS : List Suit := [.clubs, .diamonds, .hearts, .spades]

/-- Textual rank, as in the Python strings. -/
def rankStr : Rank → String
  | .r2 => "2" | .r3 => "3" | .r4 => "4" | .r5 => "5" | .r6 => "6" | .r7 => "7"
  | .r8 => "8" | .r9 => "9" | .rT => "T" | .rJ => "J" | .rQ => "Q" | .rK => "K"
  | .rA => "A"

/-- Textual suit, as in the Python strings. -/
def suitStr : Suit → String
  | .clubs => "♣" | .diamonds => "♦" | .hearts => "♥" | .spades => "♠"

/-- Python `sorted(set(values))`: insert into an ascending duplicate-free list. -/
def insertAsc (x : Nat) : List Nat → List Nat
  | [] => [x]
  | y :: ys => if x < y then x :: y :: ys else if x = y then y :: ys else y :: insertAsc x ys

/-- Python `sorted(set(values))` (ascending, duplicates removed). -/
def sortedSet (l : List Nat) : List Nat := l.foldr insertAsc []

lemma mem_insertAsc {a x : Nat} {l : List Nat} :
    a ∈ insertAsc x l ↔ a = x ∨ a ∈ l := by
  induction l with
  | nil => simp [insertAsc]
  | cons y ys ih =>
    rw [insertAsc]
    by_cases h1 : x < y
    · rw [if_pos h1]
      simp only [List.mem_cons]
    · rw [if_neg h1]
      by_cases h2 : x = y
      · rw [if_pos h2]
        subst h2
        simp only [List.mem_cons]
        tauto
      · rw [if_neg h2]
        simp only [List.mem_cons, ih]
        tauto

lemma sorted_insertAsc {x : Nat} {l : List Nat}
    (h : l.Sorted (· < ·)) : (insertAsc x l).Sorted (· < ·) := by
  induction l with
  | nil => simp [insertAsc]
  | cons y ys ih =>
    rw [List.sorted_cons] at h
    by_cases h1 : x < y
    · rw [insertAsc, if_pos h1, List.sorted_cons]
      refine ⟨?_, by rw [List.sorted_cons]; exact h⟩
      intro b hb
      rw [List.mem_cons] at hb
      rcases hb with hb | hb
      · omega
      · have := h.1 b hb
        omega
    · by_cases h2 : x = y
      · subst h2
        rw [insertAsc, if_neg h1, if_pos rfl, List.sorted_cons]
        exact h
      · rw [insertAsc, if_neg h1, if_neg h2, List.sorted_cons]
        refine ⟨?_, ih h.2⟩
        intro b hb
        rw [mem_insertAsc] at hb
        rcases hb with hb | hb
        · omega
        · exact h.1 b hb

lemma sortedSet_sorted (l : List Nat) : (sortedSet l).Sorted (· < ·) := by
  induction l with
  | nil => simp [sortedSet]
  | cons x xs ih => exact sorted_insertAsc ih

lemma sortedSet_mem {a : Nat} {l : List Nat} : a ∈ sortedSet l ↔ a ∈ l := by
  induction l with
  | nil => simp [sortedSet]
  | cons x xs ih =>
    show a ∈ insertAsc x (sortedSet xs) ↔ _
    rw [mem_insertAsc, ih]
    simp

lemma sortedSet_nodup (l : List Nat) : (sortedSet l).Nodup :=
  (sortedSet_sorted l).nodup

/-- Two strictly sorted lists with the same members are equal. -/
lemma strictSorted_eq_of_mem_iff :
    ∀ {l₁ l₂ : List Nat}, l₁.Sorted (· < ·) → l₂.Sorted (· < ·) →
      (∀ x, x ∈ l₁ ↔ x ∈ l₂) → l₁ = l₂ := by
  intro l₁
  induction l₁ with
  | nil =>
    intro l₂ _ _ hmem
    cases l₂ with
    | nil => rfl
    | cons b bs => exact absurd ((hmem b).2 (by simp)) (by simp)
  | cons a as ih =>
    intro l₂ h₁ h₂ hmem
    cases l₂ with
    | nil => exact absurd ((hmem a).1 (by simp)) (by simp)
    | cons b bs =>
      rw [List.sorted_cons] at h₁ h₂
      have hab : a = b := by
        have ha : a ∈ b :: bs := (hmem a).1 (by simp)
        have hb : b ∈ a :: as := (hmem b).2 (by simp)
        rcases List.mem_cons.1 ha with h | h
        · exact h
        · rcases List.mem_cons.1 hb with h' | h'
          · omega
          · have := h₂.1 a h
            have := h₁.1 b h'
            omega
      subst hab
      have : as = bs := by
        refine ih h₁.2 h₂.2 ?_
        intro x
        constructor
        · intro hx
          have := (hmem x).1 (by simp [hx])
          rcases List.mem_cons.1 this with h | h
          · exact absurd hx (by have := h₁.1 x; subst h; intro hc; exact absurd (this hc) (by omega))
          · exact h
        · intro hx
          have := (hmem x).2 (by simp [hx])
          rcases List.mem_cons.1 this with h | h
          · exact absurd hx (by have := h₂.1 x; subst h; intro hc; exact absurd (this hc) (by omega))
          · exact h
      rw [this]

lemma sortedSet_length_eq_iff {l : List Nat} :
    (sortedSet l).length = l.length ↔ l.Nodup := by
  have hperm : List.Perm l.dedup (sortedSet l) := by
    rw [List.perm_ext_iff_of_nodup (List.nodup_dedup l) (sortedSet_nodup l)]
    intro x
    rw [List.mem_dedup, sortedSet_mem]
  constructor
  · intro h
    have hlen : l.dedup.length = l.length := by rw [hperm.length_eq, h]
    have hd : l.dedup = l := (List.dedup_sublist l).eq_of_length hlen
    rw [← hd]
    exact List.nodup_dedup l
  · intro h
    have := hperm.length_eq
    rw [List.dedup_eq_self.2 h] at this
    omega

/-- `straight_high(values)` from the source: `None` unless the values are
distinct and either consecutive (high card returned) or, for exactly 5
values, the wheel `[2,3,4,5,14]` (returns 5).  The `[]` case stands for
Python raising on `max([])`; it is unreachable from `eval_strict`. -/
def straight_high (values : List Nat) : Option Nat :=
  if (sortedSet values).length ≠ values.length then none
  else if hv : sortedSet values = [] then none
  else if values.length = 5 ∧ sortedSet values = [2, 3, 4, 5, 14] then some 5
  else if (sortedSet values).getLast hv - (sortedSet values).head hv = values.length - 1 then
    some ((sortedSet values).getLast hv)
  else none

lemma sorted_le_getLast :
    ∀ {l : List Nat}, l.Sorted (· < ·) → ∀ {x : Nat}, x ∈ l → ∀ (hne : l ≠ []),
      x ≤ l.getLast hne := by
  intro l
  induction l with
  | nil => intro _ x hx; exact absurd hx (by simp)
  | cons a t ih =>
    intro hs x hx hne
    rw [List.sorted_cons] at hs
    cases t with
    | nil =>
      rw [List.mem_singleton] at hx
      subst hx
      simp [List.getLast]
    | cons b u =>
      rw [List.getLast_cons (by simp)]
      rw [List.mem_cons] at hx
      rcases hx with hx | hx
      · subst hx
        have hmem := List.getLast_mem (l := b :: u) (by simp)
        have := hs.1 _ hmem
        omega
      · exact ih hs.2 hx (by simp)

lemma range'_sorted : ∀ (n s : Nat), (List.range' s n).Sorted (· < ·) := by
  intro n
  induction n with
  | zero => intro s; simp
  | succ m ih =>
    intro s
    rw [List.range'_succ, List.sorted_cons]
    refine ⟨?_, ih (s + 1)⟩
    intro b hb
    rw [List.mem_range'_1] at hb
    omega

lemma range'_getLast (s n : Nat) (hne : List.range' s (n + 1) ≠ []) :
    (List.range' s (n + 1)).getLast hne = s + n := by
  have h := List.range'_1_concat s n
  rw [List.getLast_congr _ _ h]
  exact List.getLast_concat _

/-- If `vs` lists exactly the integer range `[lo, lo + |vs|)` then its sorted
set is the canonical ascending range. -/
lemma sortedSet_eq_range' {vs : List Nat} {lo : Nat}
    (hmem : ∀ x, x ∈ vs ↔ lo ≤ x ∧ x < lo + vs.length) :
    sortedSet vs = List.range' lo vs.length := by
  refine strictSorted_eq_of_mem_iff (sortedSet_sorted vs) (range'_sorted _ _) ?_
  intro x
  rw [sortedSet_mem, hmem, List.mem_range'_1]

/-- Soundness of the consecutive-run branch of `straight_high`: distinct
consecutive values always yield a straight with the top value as key. -/
lemma straight_high_of_consec {vs : List Nat} {lo : Nat} (hne : vs ≠ [])
    (hnd : vs.Nodup)
    (hmem : ∀ x, x ∈ vs ↔ lo ≤ x ∧ x < lo + vs.length) :
    straight_high vs = some (lo + vs.length - 1) := by
  obtain ⟨m, hm⟩ : ∃ m, vs.length = m + 1 := by
    cases h : vs.length with
    | zero => exact absurd (List.length_eq_zero.1 h) hne
    | succ k => exact ⟨k, rfl⟩
  have hv : sortedSet vs = List.range' lo vs.length := sortedSet_eq_range' hmem
  have hlen : (sortedSet vs).length = vs.length := sortedSet_length_eq_iff.2 hnd
  have hwheel : ¬ (vs.length = 5 ∧ List.range' lo vs.length = [2, 3, 4, 5, 14]) := by
    rintro ⟨h5, heq⟩
    have h2 : (2 : Nat) ∈ List.range' lo vs.length := by rw [heq]; simp
    have h14 : (14 : Nat) ∈ List.range' lo vs.length := by rw [heq]; simp
    rw [List.mem_range'_1] at h2 h14
    omega
  have h1 : sortedSet vs = List.range' lo (m + 1) := by rw [hv, hm]
  have hr : List.range' lo (m + 1) ≠ [] := (List.range'_ne_nil lo).2 (Nat.succ_ne_zero m)
  have hne2 : sortedSet vs ≠ [] := by rw [h1]; exact hr
  have hlast : (sortedSet vs).getLast hne2 = lo + m := by
    rw [List.getLast_congr hne2 hr h1]
    exact range'_getLast lo m hr
  have hhead : (sortedSet vs).head hne2 = lo := by
    have h2 : sortedSet vs = lo :: List.range' (lo + 1) m := by
      rw [hv, hm, List.range'_succ]
    simp only [h2, List.head_cons]
  rw [straight_high, if_neg (by omega), dif_neg hne2,
    if_neg (by rw [hv]; exact hwheel), if_pos (by rw [hlast, hhead, hm]; omega),
    hlast, hm]
  simp only [Option.some.injEq]
  omega

/-- Soundness of the wheel branch: for five distinct values `{2,3,4,5,14}`
(ace,2,3,4,5) the straight key is 5, not 14. -/
lemma straight_high_of_wheel {vs : List Nat} (hnd : vs.Nodup)
    (hmem : ∀ x, x ∈ vs ↔ x ∈ ([2, 3, 4, 5, 14] : List Nat)) :
    straight_high vs = some 5 := by
  have hv : sortedSet vs = [2, 3, 4, 5, 14] := by
    refine strictSorted_eq_of_mem_iff (sortedSet_sorted vs) (by decide) ?_
    intro x
    rw [sortedSet_mem, hmem]
  have hlen5 : vs.length = 5 := by
    have h1 : (sortedSet vs).length = vs.length := sortedSet_length_eq_iff.2 hnd
    rw [hv] at h1
    simp at h1
    omega
  rw [straight_high, if_neg (by rw [hv, hlen5]; simp), dif_neg (by rw [hv]; simp),
    if_pos ⟨hlen5, hv⟩]

/-- Completeness: whenever `straight_high` reports a straight, the values are
distinct and are either a consecutive run keyed by its maximum, or exactly
the 5-card wheel keyed by 5. -/
lemma straight_high_eq_some {vs : List Nat} {k : Nat}
    (h : straight_high vs = some k) :
    vs.Nodup ∧
      ((∃ lo, (∀ x, x ∈ vs ↔ lo ≤ x ∧ x < lo + vs.length) ∧ k = lo + vs.length - 1)
        ∨ (vs.length = 5 ∧ (∀ x, x ∈ vs ↔ x ∈ ([2, 3, 4, 5, 14] : List Nat)) ∧ k = 5)) := by
  rw [straight_high] at h
  by_cases hlen : (sortedSet vs).length = vs.length
  swap
  · rw [if_pos hlen] at h
    exact absurd h (by simp)
  have hnd : vs.Nodup := sortedSet_length_eq_iff.1 hlen
  rw [if_neg (by omega)] at h
  refine ⟨hnd, ?_⟩
  by_cases hnil : sortedSet vs = []
  · rw [dif_pos hnil] at h
    exact absurd h (by simp)
  rw [dif_neg hnil] at h
  by_cases hw : vs.length = 5 ∧ sortedSet vs = [2, 3, 4, 5, 14]
  · rw [if_pos hw] at h
    refine Or.inr ⟨hw.1, ?_, (Option.some.inj h).symm⟩
    intro x
    rw [← sortedSet_mem (l := vs), hw.2]
  · rw [if_neg hw] at h
    obtain ⟨a, t, hv⟩ : ∃ a t, sortedSet vs = a :: t := by
      cases hvv : sortedSet vs with
      | nil => exact absurd hvv hnil
      | cons x xs => exact ⟨x, xs, rfl⟩
    have hhead : (sortedSet vs).head hnil = a := by
      simp only [hv, List.head_cons]
    set m := (sortedSet vs).getLast hnil with hmdef
    by_cases hc : m - (sortedSet vs).head hnil = vs.length - 1
    swap
    · rw [if_neg hc] at h
      exact absurd h (by simp)
    rw [if_pos hc] at h
    have hkm : k = m := (Option.some.inj h).symm
    rw [hhead] at hc
    have hsort : (a :: t).Sorted (· < ·) := hv ▸ sortedSet_sorted vs
    have hlast2 : (a :: t).getLast (List.cons_ne_nil a t) = m :=
      List.getLast_congr _ hnil hv.symm
    have hn1 : vs.length = t.length + 1 := by
      have h2 := hlen
      rw [hv] at h2
      simp at h2
      omega
    have hmmem : m ∈ a :: t := by
      rw [← hv]
      exact List.getLast_mem hnil
    have ham : a ≤ m := by
      rw [List.mem_cons] at hmmem
      rcases hmmem with h' | h'
      · omega
      · rw [List.sorted_cons] at hsort
        have := hsort.1 m h'
        omega
    have hmax : ∀ x ∈ a :: t, a ≤ x ∧ x ≤ m := by
      intro x hx
      constructor
      · rw [List.mem_cons] at hx
        rcases hx with h' | h'
        · omega
        · rw [List.sorted_cons] at hsort
          have := hsort.1 x h'
          omega
      · rw [← hlast2]
        exact sorted_le_getLast hsort hx _
    -- pigeonhole: a strictly sorted list of length n inside [a, m] with
    -- m - a = n - 1 exhausts the interval
    have hfin : (a :: t).toFinset = Finset.Icc a m := by
      have hsubset : (a :: t).toFinset ⊆ Finset.Icc a m := by
        intro x hx
        rw [List.mem_toFinset] at hx
        rw [Finset.mem_Icc]
        exact hmax x hx
      refine Finset.eq_of_subset_of_card_le hsubset ?_
      rw [Nat.card_Icc]
      have hcard : (a :: t).toFinset.card = (a :: t).length :=
        List.toFinset_card_of_nodup hsort.nodup
      rw [hcard]
      simp only [List.length_cons]
      omega
    refine Or.inl ⟨a, ?_, by omega⟩
    intro x
    rw [← sortedSet_mem (l := vs), hv]
    constructor
    · intro hx
      have := hmax x hx
      omega
    · intro hx
      have hx2 : x ∈ Finset.Icc a m := by
        rw [Finset.mem_Icc]
        omega
      rw [← hfin, List.mem_toFinset] at hx2
      exact hx2

/-- Outcomes of `eval_strict` that Python reports by raising:
`badSize` is the explicit `ValueError("Потрібно 2–5 карт")`; `emptyMax` is
`max()` applied to an empty generator; `indexErr` is an out-of-range
`items[...]` access. -/
inductive EvalErr where
  | badSize | emptyMax | indexErr
deriving DecidableEq, Repr

/-- One step of building `cnt` (a Python dict keyed by rank, insertion
order preserved). -/
def bumpRank (acc : List (Rank × Nat)) (r : Rank) : List (Rank × Nat) :=
  if acc.any (fun e => e.1 == r) then
    acc.map (fun e => if e.1 == r then (e.1, e.2 + 1) else e)
  else acc ++ [(r, 1)]

/-- `cnt` from `eval_strict`: rank → multiplicity, first-occurrence order. -/
def countRanks (rs : List Rank) : List (Rank × Nat) := rs.foldl bumpRank []

/-- Insert into a list sorted descending by the Python key
`(count, RANK_VALUE[rank])`.  Keys are distinct (one entry per rank), so
this insertion sort computes exactly `sorted(cnt.items(), key=..., reverse=True)`. -/
def insDesc (e : Rank × Nat) : List (Rank × Nat) → List (Rank × Nat)
  | [] => [e]
  | x :: xs =>
    if x.2 < e.2 ∨ (x.2 = e.2 ∧ rankValue x.1 < rankValue e.1) then e :: x :: xs
    else x :: insDesc e xs

/-- `items = sorted(cnt.items(), key=lambda kv: (kv[1], RANK_VALUE[kv[0]]), reverse=True)`. -/
def sortItems (l : List (Rank × Nat)) : List (Rank × Nat) := l.foldr insDesc []

/-- Descending insertion for plain values (`sorted(values, reverse=True)`). -/
def insDescNat (x : Nat) : List Nat → List Nat
  | [] => [x]
  | y :: ys => if y < x then x :: y :: ys else y :: insDescNat x ys

/-- `tuple(sorted(values, reverse=True))`. -/
def sortDescNat (l : List Nat) : List Nat := l.foldr insDescNat []

/-- `len(set(suits)) == 1`. -/
def isFlushB : List Suit → Bool
  | [] => false
  | s :: rest => rest.all (fun x => x == s)

/-- The rank values of the count-1 groups, in `items` order
(`RANK_VALUE[r] for r, c in items if c == 1`). -/
def kickerVals (items : List (Rank × Nat)) : List Nat :=
  (items.filter (fun e => e.2 == 1)).map (fun e => rankValue e.1)

/-- `max(RANK_VALUE[r] for r, c in items if c == 1)`; `none` is Python's
`ValueError: max() arg is an empty sequence`. -/
def maxKickerVal (items : List (Rank × Nat)) : Option Nat :=
  match kickerVals items with
  | [] => none
  | a :: t => some (t.foldl max a)

/-- `eval_strict(cards)` from the source, returning
`(category, tiebreak tuple, label)` or the raised error.  Category numbers
are the size-specific `CAT_2`/`CAT_3`/`CAT_4`/`CAT_5` table values. -/
def evalStrict (cards : List (Rank × Suit)) : Except EvalErr (Nat × List Nat × String) :=
  let n := cards.length
  if ¬ (2 ≤ n ∧ n ≤ 5) then .error .badSize
  else
    let ranks := cards.map (fun c => c.1)
    let suits := cards.map (fun c => c.2)
    let items := sortItems (countRanks ranks)
    let values := ranks.map rankValue
    let sh := straight_high values
    match items with
    | [] => .error .indexErr
    | i0 :: rest =>
      if n = 2 then
        if i0.2 = 2 then .ok (2, [rankValue i0.1], "Пара")
        else .ok (1, sortDescNat values, "Старші карти")
      else if n = 3 then
        if i0.2 = 3 then .ok (3, [rankValue i0.1], "Трійка")
        else if i0.2 = 2 then
          match maxKickerVal (i0 :: rest) with
          | none => .error .emptyMax
          | some kick => .ok (2, [rankValue i0.1, kick], "Пара")
        else if sh.isSome then .ok (5, [sh.getD 0], "Стріт (3)")
        else if isFlushB suits then .ok (4, sortDescNat values, "Флеш (3)")
        else .ok (1, sortDescNat values, "Старші карти")
      else if n = 4 then
        if i0.2 = 4 then .ok (7, [rankValue i0.1], "Каре")
        else if i0.2 = 3 then
          match maxKickerVal (i0 :: rest) with
          | none => .error .emptyMax
          | some kick => .ok (4, [rankValue i0.1, kick], "Трійка")
        else if i0.2 = 2 then
          match rest with
          | [] => .error .indexErr
          | i1 :: _ =>
            if i1.2 = 2 then
              match maxKickerVal (i0 :: rest) with
              | none => .error .emptyMax
              | some kick =>
                .ok (3, [max (rankValue i0.1) (rankValue i1.1),
                         min (rankValue i0.1) (rankValue i1.1), kick], "Дві пари")
            else .ok (2, rankValue i0.1 :: sortDescNat (kickerVals (i0 :: rest)), "Пара")
        else if sh.isSome then .ok (6, [sh.getD 0], "Стріт (4)")
        else if isFlushB suits then .ok (5, sortDescNat values, "Флеш (4)")
        else .ok (1, sortDescNat values, "Старші карти")
      else
        if sh.isSome ∧ isFlushB suits then .ok (9, [sh.getD 0], "Стріт-флеш")
        else if i0.2 = 4 then
          match maxKickerVal (i0 :: rest) with
          | none => .error .emptyMax
          | some kick => .ok (8, [rankValue i0.1, kick], "Каре")
        else if i0.2 = 3 then
          match rest with
          | [] => .error .indexErr
          | i1 :: _ =>
            if i1.2 = 2 then .ok (7, [rankValue i0.1, rankValue i1.1], "Фул-хаус")
            else if isFlushB suits then .ok (6, sortDescNat values, "Флеш")
            else if sh.isSome then .ok (5, [sh.getD 0], "Стріт")
            else .ok (4, rankValue i0.1 :: sortDescNat (kickerVals (i0 :: rest)), "Трійка")
        else if isFlushB suits then .ok (6, sortDescNat values, "Флеш")
        else if sh.isSome then .ok (5, [sh.getD 0], "Стріт")
        else if i0.2 = 2 then
          match rest with
          | [] => .error .indexErr
          | i1 :: _ =>
            if i1.2 = 2 then
              match maxKickerVal (i0 :: rest) with
              | none => .error .emptyMax
              | some kick =>
                .ok (3, [max (rankValue i0.1) (rankValue i1.1),
                         min (rankValue i0.1) (rankValue i1.1), kick], "Дві пари")
            else .ok (2, rankValue i0.1 :: sortDescNat (kickerVals (i0 :: rest)), "Пара")
        else .ok (1, sortDescNat values, "Старша карта")

/-- The fixed table set `TABLES` (30 named contest slots). -/
def TABLES : List String :=
  ["МІДТАУН","ФЕЛБЛОК","ГАРЛЕМ","РІВЕРСАЙД","ОКСМІР","ІНДЕЙЛ","ХАРБОР","ХІЛЛФОРД","БРАЙТОН","ЯРВІК",
   "ХАЙТС","ГРЕЙРОК","НОРТБРІДЖ","БЕЙСАЙД","КРОСБІ","ІСТ-ТАУН","САУЗБРІДЖ","ГРІНВЕЙ","ТОРВІК","ДАУНТАУН",
   "БРУКЛІН","ЛІБЕРТІ","ЕШПАРК","СОХО","ВЕСТ-САЙД","АЙРОНХІЛЛ","САУЗГЕЙТ","ФЕЙРМОНТ","ХАЙЛЕНД","ТВІНС"]

/-- `CardInst`: a card instance with a per-room unique id. -/
structure CardInst where
  id : Nat
  rank : Rank
  suit : Suit
deriving DecidableEq, Repr

/-- `CardInst.as_text`. -/
def cardText (c : CardInst) : String := rankStr c.rank ++ suitStr c.suit

/-- `Player`: id, display name, hand, archive (the archive is only ever
round-tripped through persistence in this code, so its entries are kept
abstract as strings). -/
structure Player where
  pid : String
  name : String
  hand : List CardInst
  archive : List String
deriving DecidableEq, Repr

/-- `Play`: an immutable submission.  `placed_ms` is a wall-clock hint with
no correctness role (spec §3), so the embedding always records 0. -/
structure Play where
  pid : String
  name : String
  table : String
  card_ids : List Nat
  cards_text : List String
  cat : Nat
  tb : List Nat
  label : String
  placed_ms : Nat
  placed_seq : Nat
deriving DecidableEq, Repr

/-- One per-table entry of a round summary (`tables_out` in `resolve_round`). -/
structure TableRec where
  table : String
  plays : List Play
  winner : Play
deriving DecidableEq, Repr

/-- A round summary (`round_rec` in `resolve_round`). -/
structure RoundRec where
  round : Nat
  tables : List TableRec
deriving DecidableEq, Repr

/-- `Room`: players and sockets are Python dicts (association list / key
set), `pending` is the table → pending plays dict (total function, `[]`
off the table set, mirroring `pending.get(t, [])`), `ready_pids` a set. -/
structure Room where
  room_id : String
  players : List (String × Player)
  sockets : List String
  pending : String → List Play
  battle_history : List RoundRec
  round_no : Nat
  ready_pids : List String
  play_seq : Nat
  next_card_id : Nat

/-- A fresh `Room(room_id=rid)`. -/
def initRoom (rid : String) : Room :=
  ⟨rid, [], [], fun _ => [], [], 0, [], 0, 1⟩

/-- Dict lookup `players[pid]`. -/
def getP (ps : List (String × Player)) (pid : String) : Option Player :=
  match ps.find? (fun e => e.1 == pid) with
  | none => none
  | some e => some e.2

/-- Dict assignment `players[pid] = pl`. -/
def setP (ps : List (String × Player)) (pid : String) (pl : Player) : List (String × Player) :=
  if ps.any (fun e => e.1 == pid) then ps.map (fun e => if e.1 == pid then (pid, pl) else e)
  else ps ++ [(pid, pl)]

/-- Set insertion (Python `set.add` / dict key add). -/
def addS (l : List String) (x : String) : List String := if x ∈ l then l else l ++ [x]

/-- Set removal (Python `set.discard` / `dict.pop`). -/
def eraseS (l : List String) (x : String) : List String := l.erase x

/-- The hand of `pid` (empty if absent). -/
def handOf (room : Room) (pid : String) : List CardInst :=
  match getP room.players pid with
  | none => []
  | some pl => pl.hand

/-- The card ids held by `pid`. -/
def handIds (room : Room) (pid : String) : List Nat := (handOf room pid).map (fun c => c.id)

/-- All pending plays, in `for t in TABLES: for play in pending[t]` order. -/
def allPlays (room : Room) : List Play := TABLES.flatMap room.pending

/-- `used_card_ids_in_round(room, pid)`: ids referenced by pid's pending plays. -/
def usedCardIds (room : Room) (pid : String) : List Nat :=
  ((allPlays room).filter (fun p => p.pid == pid)).flatMap (fun p => p.card_ids)

/-- `involved_pids(room)`: owners of at least one pending play (set,
first-appearance order). -/
def involvedPids (room : Room) : List String :=
  (allPlays room).foldl (fun acc p => if p.pid ∈ acc then acc else acc ++ [p.pid]) []

/-- Python `<` on tiebreak tuples (lexicographic, a strict prefix is smaller). -/
def tupLt : List Nat → List Nat → Bool
  | [], [] => false
  | [], _ :: _ => true
  | _ :: _, [] => false
  | a :: as2, b :: bs2 => if a < b then true else if b < a then false else tupLt as2 bs2

/-- Python `<` on `(cat, tb)` strength pairs. -/
def strLt (a b : Nat × List Nat) : Bool :=
  if a.1 < b.1 then true else if b.1 < a.1 then false else tupLt a.2 b.2

/-- `max((p.cat, p.tb) for p in plays)` (`none` for an empty table). -/
def maxStrength (plays : List Play) : Option (Nat × List Nat) :=
  match plays.map (fun p => (p.cat, p.tb)) with
  | [] => none
  | s :: rest => some (rest.foldl (fun acc x => if strLt acc x then x else acc) s)

/-- The winner selection of `resolve_round`: the maximal-strength plays,
then `min(..., key=placed_seq)` keeping the first minimal one. -/
def pickWinner (plays : List Play) : Option Play :=
  match maxStrength plays with
  | none => none
  | some best =>
    match plays.filter (fun p => (p.cat, p.tb) == best) with
    | [] => none
    | b :: rest => some (rest.foldl (fun acc q => if q.placed_seq < acc.placed_seq then q else acc) b)

/-- `tables_out` of `resolve_round`: tables with at least one play, each
with its play list and winner. -/
def tablesOut (room : Room) : List TableRec :=
  TABLES.filterMap (fun t =>
    match pickWinner (room.pending t) with
    | none => none
    | some w => some ⟨t, room.pending t, w⟩)

/-- `resolve_round(room)`: bump the round counter, compute per-table
winners, strip every played id from its owner's hand (`remove_by_pid[pid]`
is exactly `usedCardIds room pid`; players without plays are filtered by
an always-true predicate, leaving their hands unchanged), append the round
record, clear all pending plays and the readiness set. -/
def resolveRound (room : Room) : Room × RoundRec :=
  let rn := room.round_no + 1
  let recd : RoundRec := ⟨rn, tablesOut room⟩
  ({ room with
      round_no := rn
      players := room.players.map (fun e =>
        (e.1, { e.2 with hand := e.2.hand.filter (fun c => ¬ c.id ∈ usedCardIds room e.1) }))
      battle_history := room.battle_history ++ [recd]
      pending := fun _ => []
      ready_pids := [] }, recd)

/-- `maybe_finish_round`: resolve iff some play is pending and every
involved pid has voted ready. -/
def maybeFinishRound (room : Room) : Room × Option RoundRec :=
  if involvedPids room = [] then (room, none)
  else if ∀ q ∈ involvedPids room, q ∈ room.ready_pids then
    let r := resolveRound room
    (r.1, some r.2)
  else (room, none)

/-- The error outcomes of the websocket actions (each corresponds to one
`{"type": "error", ...}` reply, except `evalCrash`, which models the
uncaught `ValueError` escaping `eval_strict` inside `play_selected`). -/
inductive Err where
  | roomFull | badTable | badSize | noSuchCards | cardsUsed | evalCrash
  | dealNeg | dealTooBig | cardsInUse | nothingRemoved
deriving DecidableEq, Repr

/-- The join handshake: create the player (capacity ≤ 6) or rename, and
bind the socket.  On `roomFull` the connection is refused before the
socket is registered. -/
def joinOp (room : Room) (pid name : String) : Room × Option Err :=
  match getP room.players pid with
  | none =>
    if room.players.length < 6 then
      ({ room with players := room.players ++ [(pid, ⟨pid, name, [], []⟩)],
                   sockets := addS room.sockets pid }, none)
    else (room, some .roomFull)
  | some pl =>
    ({ room with players := setP room.players pid { pl with name := name },
                 sockets := addS room.sockets pid }, none)

/-- Socket teardown (the `finally` block): only the socket binding goes. -/
def disconnectOp (room : Room) (pid : String) : Room :=
  { room with sockets := eraseS room.sockets pid }

/-- `room.new_card` iterated: fresh sequential ids starting at `start`. -/
def mkFresh (start : Nat) : List (Rank × Suit) → List CardInst
  | [] => []
  | c :: cs => ⟨start, c.1, c.2⟩ :: mkFresh (start + 1) cs

/-- Append one issued batch to `pid`'s hand, allocating fresh ids. -/
def dealCore (room : Room) (pid : String) (cs : List (Rank × Suit)) : Room :=
  match getP room.players pid with
  | none => room
  | some pl =>
    { room with
        players := setP room.players pid
          { pl with hand := pl.hand ++ mkFresh room.next_card_id cs },
        next_card_id := room.next_card_id + cs.length }

/-- The `deal` action.  `sample` stands for the draw made by
`random_unique_cards(n)`; its guarantees are hypotheses (`SampleFrom`). -/
def dealOp (room : Room) (pid : String) (n : Int) (sample : List (Rank × Suit)) :
    Room × Option Err :=
  match getP room.players pid with
  | none => (room, none)
  | some _ =>
    if n < 0 then (room, some .dealNeg)
    else if 52 < n then (room, some .dealTooBig)
    else (dealCore room pid sample, none)

/-- The `deal_all` action: one independent draw per player, in player
insertion order (Python iterates `room.players.values()` drawing a fresh
`random_unique_cards(n)` for each). -/
def dealAllOp (room : Room) (pid : String) (n : Int)
    (samples : String → List (Rank × Suit)) : Room × Option Err :=
  match getP room.players pid with
  | none => (room, none)
  | some _ =>
    if n < 0 then (room, some .dealNeg)
    else if 52 < n then (room, some .dealTooBig)
    else ((room.players.map (fun e => e.1)).foldl (fun r q => dealCore r q (samples q)) room, none)

/-- The `add_manual` action after the (collaborator) text parse succeeded. -/
def addManualOp (room : Room) (pid : String) (rk : Rank) (st : Suit) : Room × Option Err :=
  match getP room.players pid with
  | none => (room, none)
  | some _ => (dealCore room pid [(rk, st)], none)

/-- The `clear_hand` action: unconditional, even for cards referenced by
pending plays. -/
def clearHandOp (room : Room) (pid : String) : Room :=
  match getP room.players pid with
  | none => room
  | some pl => { room with players := setP room.players pid { pl with hand := [] } }

/-- The `remove_selected` action. -/
def removeSelectedOp (room : Room) (pid : String) (ids : List Nat) : Room × Option Err :=
  match getP room.players pid with
  | none => (room, none)
  | some pl =>
    if ids = [] then (room, none)
    else if ∃ i ∈ ids, i ∈ usedCardIds room pid then (room, some .cardsInUse)
    else
      let newHand := pl.hand.filter (fun c => ¬ c.id ∈ ids)
      if newHand.length = pl.hand.length then
        ({ room with players := setP room.players pid { pl with hand := newHand } },
         some .nothingRemoved)
      else
        ({ room with players := setP room.players pid { pl with hand := newHand } }, none)

/-- `lookup = {c.id: c for c in hand}` followed by `lookup.get(i)` (later
duplicates shadow earlier ones, as in a dict comprehension). -/
def lookupCard (hand : List CardInst) (i : Nat) : Option CardInst :=
  hand.foldl (fun acc c => if c.id = i then some c else acc) none

/-- The `play_selected` action: validate table / size / hand membership /
per-player reuse, evaluate, then commit (readiness revoked, `play_seq`
bumped, play appended).  An `evalCrash` aborts before any mutation. -/
def playSelectedOp (room : Room) (pid tbl : String) (ids : List Nat) : Room × Option Err :=
  match getP room.players pid with
  | none => (room, none)
  | some pl =>
    if ¬ tbl ∈ TABLES then (room, some .badTable)
    else if ¬ (2 ≤ ids.length ∧ ids.length ≤ 5) then (room, some .badSize)
    else if ¬ (∀ i ∈ ids, (lookupCard pl.hand i).isSome) then (room, some .noSuchCards)
    else if ∃ i ∈ ids, i ∈ usedCardIds room pid then (room, some .cardsUsed)
    else
      match evalStrict (ids.filterMap (fun i => (lookupCard pl.hand i).map (fun c => (c.rank, c.suit)))) with
      | .error _ => (room, some .evalCrash)
      | .ok (cat, tb, label) =>
        let seq2 := room.play_seq + 1
        let play : Play := ⟨pid, pl.name, tbl, ids,
          ids.filterMap (fun i => (lookupCard pl.hand i).map cardText),
          cat, tb, label, 0, seq2⟩
        ({ room with
            ready_pids := eraseS room.ready_pids pid
            play_seq := seq2
            pending := fun u => if u = tbl then room.pending u ++ [play] else room.pending u },
         none)

/-- The `end_round_vote` action: add the vote, then `maybe_finish_round`. -/
def endRoundVoteOp (room : Room) (pid : String) : Room × Option RoundRec :=
  match getP room.players pid with
  | none => (room, none)
  | some _ => maybeFinishRound { room with ready_pids := addS room.ready_pids pid }

/-- The `end_round_force` action: resolve unconditionally. -/
def endRoundForceOp (room : Room) (pid : String) : Room × Option RoundRec :=
  match getP room.players pid with
  | none => (room, none)
  | some _ =>
    let r := resolveRound room
    (r.1, some r.2)

/-- The reachable room states: a fresh room followed by any sequence of
handler actions.  `deal`/`deal_all` draws are arbitrary here (their
randomness guarantees only matter for batch uniqueness, not for the state
invariants), which only enlarges the reachable set. -/
inductive Reachable : Room → Prop where
  | init (rid : String) : Reachable (initRoom rid)
  | join {r} (h : Reachable r) (pid name : String) : Reachable (joinOp r pid name).1
  | deal {r} (h : Reachable r) (pid : String) (n : Int) (sample : List (Rank × Suit)) :
      Reachable (dealOp r pid n sample).1
  | dealAll {r} (h : Reachable r) (pid : String) (n : Int)
      (samples : String → List (Rank × Suit)) : Reachable (dealAllOp r pid n samples).1
  | addManual {r} (h : Reachable r) (pid : String) (rk : Rank) (st : Suit) :
      Reachable (addManualOp r pid rk st).1
  | clearHand {r} (h : Reachable r) (pid : String) : Reachable (clearHandOp r pid)
  | removeSelected {r} (h : Reachable r) (pid : String) (ids : List Nat) :
      Reachable (removeSelectedOp r pid ids).1
  | playSelected {r} (h : Reachable r) (pid tbl : String) (ids : List Nat) :
      Reachable (playSelectedOp r pid tbl ids).1
  | vote {r} (h : Reachable r) (pid : String) : Reachable (endRoundVoteOp r pid).1
  | force {r} (h : Reachable r) (pid : String) : Reachable (endRoundForceOp r pid).1
  | disconnect {r} (h : Reachable r) (pid : String) : Reachable (disconnectOp r pid)

lemma getP_cons {e : String × Player} {es : List (String × Player)} {pid : String} :
    getP (e :: es) pid = if e.1 == pid then some e.2 else getP es pid := by
  simp only [getP, List.find?]
  cases h : e.1 == pid <;> simp

lemma getP_setP_self {ps : List (String × Player)} {pid : String} {pl : Player} :
    getP (setP ps pid pl) pid = some pl := by
  rw [setP]
  by_cases hany : ps.any (fun e => e.1 == pid)
  · rw [if_pos hany]
    induction ps with
    | nil => simp at hany
    | cons e es ih =>
      simp only [List.map_cons]
      by_cases he : e.1 == pid
      · rw [if_pos he, getP_cons]
        simp
      · rw [if_neg he, getP_cons, if_neg he]
        apply ih
        simp only [List.any_cons, he, Bool.false_or] at hany
        exact hany
  · rw [if_neg hany]
    induction ps with
    | nil => simp [getP_cons]
    | cons e es ih =>
      simp only [List.any_cons, Bool.or_eq_true, not_or] at hany
      rw [List.cons_append, getP_cons, if_neg (by simpa using hany.1)]
      exact ih (by simpa using hany.2)

lemma getP_setP_ne {ps : List (String × Player)} {pid q : String} {pl : Player}
    (h : q ≠ pid) : getP (setP ps pid pl) q = getP ps q := by
  rw [setP]
  by_cases hany : ps.any (fun e => e.1 == pid)
  · rw [if_pos hany]
    clear hany
    induction ps with
    | nil => rfl
    | cons e es ih =>
      simp only [List.map_cons]
      by_cases he : e.1 == pid
      · rw [if_pos he, getP_cons, getP_cons]
        have h1 : (pid == q) = false := by
          rw [beq_eq_false_iff_ne]
          exact fun hc => h hc.symm
        have h2 : (e.1 == q) = false := by
          have he2 : e.1 = pid := by simpa using he
          rw [beq_eq_false_iff_ne, he2]
          exact fun hc => h hc.symm
        rw [h1, h2]
        simp only [Bool.false_eq_true, if_false]
        exact ih
      · rw [if_neg he, getP_cons, getP_cons, ih]
  · rw [if_neg hany]
    induction ps with
    | nil =>
      rw [List.nil_append, getP_cons]
      have h1 : (pid == q) = false := by
        rw [beq_eq_false_iff_ne]
        exact fun hc => h hc.symm
      rw [h1]
      simp [getP]
    | cons e es ih =>
      simp only [List.any_cons, Bool.or_eq_true, not_or] at hany
      rw [List.cons_append, getP_cons, getP_cons]
      by_cases he : e.1 == q
      · rw [if_pos he, if_pos he]
      · rw [if_neg he, if_neg he]
        exact ih (by simpa using hany.2)

lemma getP_map_entry {ps : List (String × Player)} {q : String}
    (f : String → Player → Player) :
    getP (ps.map (fun e => (e.1, f e.1 e.2))) q = (getP ps q).map (f q) := by
  induction ps with
  | nil => rfl
  | cons e es ih =>
    simp only [List.map_cons, getP_cons]
    by_cases he : e.1 == q
    · have : e.1 = q := by simpa using he
      rw [if_pos he, if_pos he, this]
      rfl
    · rw [if_neg he, if_neg he, ih]

lemma mem_addS {l : List String} {x q : String} :
    q ∈ addS l x ↔ q ∈ l ∨ q = x := by
  rw [addS]
  by_cases h : x ∈ l
  · rw [if_pos h]
    constructor
    · exact Or.inl
    · rintro (hq | rfl)
      · exact hq
      · exact h
  · rw [if_neg h]
    simp

lemma eraseS_subset {l : List String} {x : String} : ∀ q ∈ eraseS l x, q ∈ l :=
  fun _ hq => List.mem_of_mem_erase hq

lemma mkFresh_length (s : Nat) (cs : List (Rank × Suit)) :
    (mkFresh s cs).length = cs.length := by
  induction cs generalizing s with
  | nil => rfl
  | cons c cs ih => simp [mkFresh, ih]

lemma mem_mkFresh_id {s : Nat} {cs : List (Rank × Suit)} {c : CardInst}
    (h : c ∈ mkFresh s cs) : s ≤ c.id ∧ c.id < s + cs.length := by
  induction cs generalizing s with
  | nil => simp [mkFresh] at h
  | cons d ds ih =>
    rw [mkFresh, List.mem_cons] at h
    rcases h with h | h
    · subst h
      refine ⟨Nat.le_refl s, ?_⟩
      show s < s + (d :: ds).length
      simp only [List.length_cons]
      omega
    · have := ih h
      simp only [List.length_cons]
      omega

lemma mkFresh_ids_nodup (s : Nat) (cs : List (Rank × Suit)) :
    ((mkFresh s cs).map (fun c => c.id)).Nodup := by
  induction cs generalizing s with
  | nil => simp [mkFresh]
  | cons d ds ih =>
    rw [mkFresh, List.map_cons, List.nodup_cons]
    refine ⟨?_, ih (s + 1)⟩
    intro hc
    rw [List.mem_map] at hc
    obtain ⟨c, hc, hid⟩ := hc
    have hid2 : c.id = s := hid
    have := mem_mkFresh_id hc
    omega

lemma mkFresh_faces (s : Nat) (cs : List (Rank × Suit)) :
    (mkFresh s cs).map (fun c => (c.rank, c.suit)) = cs := by
  induction cs generalizing s with
  | nil => rfl
  | cons d ds ih => simp [mkFresh, ih]

lemma mem_allPlays {room : Room} {p : Play} :
    p ∈ allPlays room ↔ ∃ t ∈ TABLES, p ∈ room.pending t := by
  simp [allPlays, List.mem_flatMap]

lemma flatMap_congr_on {ts : List String} {f g : String → List Play}
    (h : ∀ t ∈ ts, f t = g t) : ts.flatMap f = ts.flatMap g := by
  induction ts with
  | nil => rfl
  | cons a rest ih =>
    simp only [List.flatMap_cons]
    rw [h a (by simp), ih (fun t ht => h t (by simp [ht]))]

lemma allPlays_pending_eq {r1 r2 : Room} (h : ∀ t, r1.pending t = r2.pending t) :
    allPlays r1 = allPlays r2 :=
  flatMap_congr_on (fun t _ => h t)

lemma flatMap_update_perm (ts : List String) (f : String → List Play)
    (t0 : String) (pl : Play) (hnd : ts.Nodup) (hmem : t0 ∈ ts) :
    List.Perm (ts.flatMap (fun u => if u = t0 then f u ++ [pl] else f u))
      (ts.flatMap f ++ [pl]) := by
  induction ts with
  | nil => simp at hmem
  | cons a rest ih =>
    rw [List.nodup_cons] at hnd
    simp only [List.flatMap_cons]
    by_cases ha : a = t0
    · subst ha
      rw [if_pos rfl]
      have hrest : rest.flatMap (fun u => if u = a then f u ++ [pl] else f u) =
          rest.flatMap f := by
        refine flatMap_congr_on ?_
        intro t ht
        rw [if_neg]
        intro hc
        subst hc
        exact hnd.1 ht
      rw [hrest, List.append_assoc, List.append_assoc]
      exact (List.Perm.append_left (f a) (@List.perm_append_comm _ [pl] _))
    · rw [if_neg ha]
      have hm : t0 ∈ rest := by
        rcases List.mem_cons.1 hmem with h | h
        · exact absurd h.symm ha
        · exact h
      have := List.Perm.append_left (f a) (ih hnd.2 hm)
      rw [← List.append_assoc] at this
      exact this

lemma mem_usedCardIds {room : Room} {pid : String} {i : Nat} :
    i ∈ usedCardIds room pid ↔ ∃ p ∈ allPlays room, p.pid = pid ∧ i ∈ p.card_ids := by
  simp only [usedCardIds, List.mem_flatMap, List.mem_filter, beq_iff_eq]
  constructor
  · rintro ⟨p, ⟨hp, hpid⟩, hi⟩
    exact ⟨p, hp, hpid, hi⟩
  · rintro ⟨p, hp, hpid, hi⟩
    exact ⟨p, ⟨hp, hpid⟩, hi⟩

lemma mem_involved_foldl (l : List Play) :
    ∀ (acc : List String) (q : String),
      (q ∈ l.foldl (fun acc p => if p.pid ∈ acc then acc else acc ++ [p.pid]) acc ↔
        q ∈ acc ∨ ∃ p ∈ l, p.pid = q) := by
  induction l with
  | nil => intro acc q; simp
  | cons p rest ih =>
    intro acc q
    rw [List.foldl_cons, ih]
    have hstep : q ∈ (if p.pid ∈ acc then acc else acc ++ [p.pid]) ↔ q ∈ acc ∨ p.pid = q := by
      by_cases hp : p.pid ∈ acc
      · rw [if_pos hp]
        constructor
        · exact Or.inl
        · rintro (hq | rfl)
          · exact hq
          · exact hp
      · rw [if_neg hp]
        simp [eq_comm]
    rw [hstep]
    simp only [List.mem_cons]
    constructor
    · rintro ((hq | rfl) | ⟨p2, hp2, hpid⟩)
      · exact Or.inl hq
      · exact Or.inr ⟨p, Or.inl rfl, rfl⟩
      · exact Or.inr ⟨p2, Or.inr hp2, hpid⟩
    · rintro (hq | ⟨p2, hp2 | hp2, hpid⟩)
      · exact Or.inl (Or.inl hq)
      · subst hp2
        exact Or.inl (Or.inr hpid)
      · exact Or.inr ⟨p2, hp2, hpid⟩

lemma mem_involvedPids {room : Room} {q : String} :
    q ∈ involvedPids room ↔ ∃ p ∈ allPlays room, p.pid = q := by
  rw [involvedPids, mem_involved_foldl]
  simp

lemma TABLES_nodup : TABLES.Nodup := by decide

/-- The inductive room invariant: card ids are unique within a hand and
across hands, bounded by the allocator, pending plays live on real tables,
belong to joined players, reference only allocated ids that no other
player holds, are pairwise id-disjoint, and readiness votes belong to
joined players. -/
structure RoomInv (room : Room) : Prop where
  hand_nodup : ∀ pid, (handIds room pid).Nodup
  hand_bound : ∀ pid, ∀ i ∈ handIds room pid, i < room.next_card_id
  hands_disj : ∀ p q, p ≠ q → ∀ i, i ∈ handIds room p → i ∉ handIds room q
  pend_outside : ∀ t, t ∉ TABLES → room.pending t = []
  play_pid : ∀ p ∈ allPlays room, (getP room.players p.pid).isSome
  play_bound : ∀ p ∈ allPlays room, ∀ i ∈ p.card_ids, i < room.next_card_id
  play_other_hand : ∀ p ∈ allPlays room, ∀ q, q ≠ p.pid → ∀ i ∈ p.card_ids, i ∉ handIds room q
  plays_disj : (allPlays room).Pairwise (fun a b => ∀ i, i ∈ a.card_ids → i ∉ b.card_ids)
  ready_sub : ∀ q ∈ room.ready_pids, (getP room.players q).isSome

lemma getP_setP_isSome {ps : List (String × Player)} {pid q : String} {pl : Player}
    (h : (getP ps q).isSome) : (getP (setP ps pid pl) q).isSome := by
  by_cases hq : q = pid
  · subst hq
    rw [getP_setP_self]
    rfl
  · rw [getP_setP_ne hq]
    exact h

lemma inv_dealCore {room : Room} {pid : String} {cs : List (Rank × Suit)}
    (h : RoomInv room) : RoomInv (dealCore room pid cs) := by
  rw [dealCore]
  cases hg : getP room.players pid with
  | none => exact h
  | some pl =>
    have hhand : handIds room pid = pl.hand.map (fun c => c.id) := by
      simp [handIds, handOf, hg]
    have hself : ∀ nc,
        handIds { room with
          players := setP room.players pid { pl with hand := pl.hand ++ mkFresh room.next_card_id cs },
          next_card_id := nc } pid =
        pl.hand.map (fun c => c.id) ++ (mkFresh room.next_card_id cs).map (fun c => c.id) := by
      intro nc
      simp [handIds, handOf, getP_setP_self]
    have hother : ∀ nc q, q ≠ pid →
        handIds { room with
          players := setP room.players pid { pl with hand := pl.hand ++ mkFresh room.next_card_id cs },
          next_card_id := nc } q = handIds room q := by
      intro nc q hq
      simp [handIds, handOf, getP_setP_ne hq]
    constructor
    case hand_nodup =>
      intro q
      by_cases hq : q = pid
      · subst hq
        rw [hself]
        refine List.Nodup.append (hhand ▸ h.hand_nodup q) (mkFresh_ids_nodup _ _) ?_
        intro i hi1 hi2
        have hb := h.hand_bound q i (hhand ▸ hi1)
        rw [List.mem_map] at hi2
        obtain ⟨c, hc, rfl⟩ := hi2
        have := mem_mkFresh_id hc
        omega
      · rw [hother _ _ hq]
        exact h.hand_nodup q
    case hand_bound =>
      intro q i hi
      show i < room.next_card_id + cs.length
      by_cases hq : q = pid
      · subst hq
        rw [hself] at hi
        rw [List.mem_append] at hi
        rcases hi with hi | hi
        · have := h.hand_bound q i (hhand ▸ hi)
          omega
        · rw [List.mem_map] at hi
          obtain ⟨c, hc, rfl⟩ := hi
          have := mem_mkFresh_id hc
          omega
      · rw [hother _ _ hq] at hi
        have := h.hand_bound q i hi
        omega
    case hands_disj =>
      intro p q hpq i hip hiq
      by_cases hp : p = pid
      · subst hp
        rw [hself] at hip
        rw [hother _ _ (Ne.symm hpq)] at hiq
        rw [List.mem_append] at hip
        rcases hip with hip | hip
        · exact h.hands_disj p q hpq i (hhand ▸ hip) hiq
        · rw [List.mem_map] at hip
          obtain ⟨c, hc, rfl⟩ := hip
          have h1 := mem_mkFresh_id hc
          have h2 := h.hand_bound q _ hiq
          omega
      · by_cases hq : q = pid
        · subst hq
          rw [hother _ _ hp] at hip
          rw [hself] at hiq
          rw [List.mem_append] at hiq
          rcases hiq with hiq | hiq
          · exact h.hands_disj p q hpq i hip (hhand ▸ hiq)
          · rw [List.mem_map] at hiq
            obtain ⟨c, hc, rfl⟩ := hiq
            have h1 := mem_mkFresh_id hc
            have h2 := h.hand_bound p _ hip
            omega
        · rw [hother _ _ hp] at hip
          rw [hother _ _ hq] at hiq
          exact h.hands_disj p q hpq i hip hiq
    case pend_outside =>
      intro t ht
      exact h.pend_outside t ht
    case play_pid =>
      intro p hp
      exact getP_setP_isSome (h.play_pid p hp)
    case play_bound =>
      intro p hp i hi
      show i < room.next_card_id + cs.length
      have := h.play_bound p hp i hi
      omega
    case play_other_hand =>
      intro p hp q hq i hi
      by_cases hqp : q = pid
      · subst hqp
        rw [hself]
        rw [List.mem_append]
        rintro (hmem | hmem)
        · exact h.play_other_hand p hp q hq i hi (hhand ▸ hmem)
        · rw [List.mem_map] at hmem
          obtain ⟨c, hc, hcid⟩ := hmem
          have hi2 : i = c.id := hcid.symm
          have h1 := mem_mkFresh_id hc
          have h2 := h.play_bound p hp i hi
          omega
      · rw [hother _ _ hqp]
        exact h.play_other_hand p hp q hq i hi
    case plays_disj =>
      exact h.plays_disj
    case ready_sub =>
      intro q hq
      exact getP_setP_isSome (h.ready_sub q hq)

lemma getP_append_isSome {q : String} {e : String × Player} :
    ∀ {ps : List (String × Player)},
      (getP ps q).isSome → (getP (ps ++ [e]) q).isSome := by
  intro ps
  induction ps with
  | nil => intro h; simp [getP] at h
  | cons d ds ih =>
    intro h
    rw [getP_cons] at h
    rw [List.cons_append, getP_cons]
    by_cases hd : d.1 == q
    · rw [if_pos hd]
      rfl
    · rw [if_neg hd]
      rw [if_neg hd] at h
      exact ih h

lemma getP_append_last {pid q : String} {pl : Player} :
    ∀ {ps : List (String × Player)}, getP ps pid = none →
      getP (ps ++ [(pid, pl)]) q = if pid == q then some pl else getP ps q := by
  intro ps
  induction ps with
  | nil =>
    intro _
    rw [List.nil_append, getP_cons]
  | cons d ds ih =>
    intro hnone
    rw [getP_cons] at hnone
    by_cases hd : d.1 == pid
    · rw [if_pos hd] at hnone
      exact absurd hnone (by simp)
    · rw [if_neg hd] at hnone
      rw [List.cons_append, getP_cons, getP_cons]
      by_cases hq : d.1 == q
      · rw [if_pos hq, if_pos hq]
        have h1 : d.1 = q := by simpa using hq
        have h2 : ¬ d.1 = pid := by simpa using hd
        rw [if_neg ?_]
        show ¬ (pid == q) = true
        simp only [beq_iff_eq]
        intro hc
        exact h2 (h1.trans hc.symm)
      · rw [if_neg hq, if_neg hq]
        exact ih hnone

lemma lookupCard_go {hand : List CardInst} {i : Nat} :
    ∀ acc : Option CardInst,
      hand.foldl (fun acc c => if c.id = i then some c else acc) acc =
        ((hand.reverse.find? (fun c => c.id == i)).orElse (fun _ => acc)) := by
  induction hand with
  | nil => intro acc; simp
  | cons d ds ih =>
    intro acc
    rw [List.foldl_cons, ih, List.reverse_cons, List.find?_append]
    by_cases hd : d.id = i
    · simp [hd, List.find?]
      cases h2 : ds.reverse.find? (fun c => c.id == i) <;> simp [Option.orElse]
    · have hd2 : (d.id == i) = false := by simpa using hd
      simp only [List.find?, hd2, if_neg hd]
      cases h2 : ds.reverse.find? (fun c => c.id == i) <;> simp [Option.orElse]

lemma lookupCard_some {hand : List CardInst} {i : Nat} {c : CardInst}
    (h : lookupCard hand i = some c) : c ∈ hand ∧ c.id = i := by
  rw [lookupCard, lookupCard_go] at h
  cases h2 : hand.reverse.find? (fun c => c.id == i) with
  | none => rw [h2] at h; simp [Option.orElse] at h
  | some d =>
    rw [h2] at h
    simp [Option.orElse] at h
    subst h
    have h3 := List.find?_some h2
    have h4 := List.mem_of_find?_eq_some h2
    rw [List.mem_reverse] at h4
    exact ⟨h4, by simpa using h3⟩

lemma lookupCard_isSome_iff {hand : List CardInst} {i : Nat} :
    (lookupCard hand i).isSome ↔ i ∈ hand.map (fun c => c.id) := by
  rw [lookupCard, lookupCard_go]
  cases h2 : hand.reverse.find? (fun c => c.id == i) with
  | none =>
    simp only [Option.orElse, Option.isSome_none]
    rw [List.find?_eq_none] at h2
    simp only [List.mem_reverse] at h2
    constructor
    · intro hc
      simp at hc
    · intro hc
      rw [List.mem_map] at hc
      obtain ⟨c, hc, hid⟩ := hc
      exact absurd (by simpa using hid.symm ▸ rfl : (c.id == i) = true) (by simpa using h2 c hc)
  | some c =>
    simp only [Option.orElse, Option.isSome_some, true_iff]
    have h3 := List.find?_some h2
    have h4 := List.mem_of_find?_eq_some h2
    rw [List.mem_reverse] at h4
    rw [List.mem_map]
    exact ⟨c, h4, by simpa using h3⟩

/-- Replacing a hand by a sublist of itself preserves the invariant
(`clear_hand`, `remove_selected`). -/
lemma inv_setHandSub {room : Room} {pid : String} {pl : Player} {newHand : List CardInst}
    (h : RoomInv room) (hg : getP room.players pid = some pl)
    (hsub : newHand.Sublist pl.hand) :
    RoomInv { room with players := setP room.players pid { pl with hand := newHand } } := by
  have hhand : handIds room pid = pl.hand.map (fun c => c.id) := by
    simp [handIds, handOf, hg]
  have hself : handIds { room with players := setP room.players pid { pl with hand := newHand } } pid
      = newHand.map (fun c => c.id) := by
    simp [handIds, handOf, getP_setP_self]
  have hother : ∀ q, q ≠ pid →
      handIds { room with players := setP room.players pid { pl with hand := newHand } } q
        = handIds room q := by
    intro q hq
    simp [handIds, handOf, getP_setP_ne hq]
  have hsubmem : ∀ i, i ∈ newHand.map (fun c => c.id) → i ∈ handIds room pid := by
    intro i hi
    rw [List.mem_map] at hi
    obtain ⟨c, hc, rfl⟩ := hi
    rw [hhand, List.mem_map]
    exact ⟨c, hsub.mem hc, rfl⟩
  constructor
  case hand_nodup =>
    intro q
    by_cases hq : q = pid
    · subst hq
      rw [hself]
      exact (hsub.map (fun c => c.id)).nodup (hhand ▸ h.hand_nodup q)
    · rw [hother q hq]
      exact h.hand_nodup q
  case hand_bound =>
    intro q i hi
    show i < room.next_card_id
    by_cases hq : q = pid
    · subst hq
      rw [hself] at hi
      exact h.hand_bound q i (hsubmem i hi)
    · rw [hother q hq] at hi
      exact h.hand_bound q i hi
  case hands_disj =>
    intro p q hpq i hip hiq
    by_cases hp : p = pid
    · subst hp
      rw [hself] at hip
      rw [hother q (Ne.symm hpq)] at hiq
      exact h.hands_disj p q hpq i (hsubmem i hip) hiq
    · by_cases hq : q = pid
      · subst hq
        rw [hother p hp] at hip
        rw [hself] at hiq
        exact h.hands_disj p q hpq i hip (hsubmem i hiq)
      · rw [hother p hp] at hip
        rw [hother q hq] at hiq
        exact h.hands_disj p q hpq i hip hiq
  case pend_outside =>
    exact h.pend_outside
  case play_pid =>
    intro p hp
    exact getP_setP_isSome (h.play_pid p hp)
  case play_bound =>
    exact h.play_bound
  case play_other_hand =>
    intro p hp q hq i hi
    by_cases hqp : q = pid
    · subst hqp
      rw [hself]
      intro hmem
      exact h.play_other_hand p hp q hq i hi (hsubmem i hmem)
    · rw [hother q hqp]
      exact h.play_other_hand p hp q hq i hi
  case plays_disj =>
    exact h.plays_disj
  case ready_sub =>
    intro q hq
    exact getP_setP_isSome (h.ready_sub q hq)

lemma flatMap_nil_fun (ts : List String) : (ts.flatMap (fun _ => ([] : List Play))) = [] := by
  induction ts with
  | nil => rfl
  | cons a rest ih => simp [ih]

lemma inv_init (rid : String) : RoomInv (initRoom rid) := by
  constructor <;>
    simp [handIds, handOf, getP, initRoom, allPlays, List.find?, flatMap_nil_fun]

lemma inv_joinOp {room : Room} {pid name : String} (h : RoomInv room) :
    RoomInv (joinOp room pid name).1 := by
  rw [joinOp]
  cases hg : getP room.players pid with
  | none =>
    by_cases hcap : room.players.length < 6
    · rw [if_pos hcap]
      have hnew : ∀ q, handIds { room with
          players := room.players ++ [(pid, ⟨pid, name, [], []⟩)],
          sockets := addS room.sockets pid } q =
          if pid == q then [] else handIds room q := by
        intro q
        simp only [handIds, handOf, getP_append_last hg]
        by_cases hq : pid == q
        · rw [if_pos hq, if_pos hq]
          rfl
        · rw [if_neg hq, if_neg hq]
      refine ⟨?_, ?_, ?_, ?_, ?_, ?_, ?_, ?_, ?_⟩
      · intro q
        rw [hnew]
        by_cases hq : pid == q
        · rw [if_pos hq]
          simp
        · rw [if_neg hq]
          exact h.hand_nodup q
      · intro q i hi
        rw [hnew] at hi
        by_cases hq : pid == q
        · rw [if_pos hq] at hi
          simp at hi
        · rw [if_neg hq] at hi
          exact h.hand_bound q i hi
      · intro p q hpq i hip hiq
        rw [hnew] at hip hiq
        by_cases hp : pid == p
        · rw [if_pos hp] at hip
          simp at hip
        · rw [if_neg hp] at hip
          by_cases hq2 : pid == q
          · rw [if_pos hq2] at hiq
            simp at hiq
          · rw [if_neg hq2] at hiq
            exact h.hands_disj p q hpq i hip hiq
      · exact h.pend_outside
      · intro p hp
        exact getP_append_isSome (h.play_pid p hp)
      · exact h.play_bound
      · intro p hp q hq i hi
        rw [hnew]
        by_cases hq2 : pid == q
        · rw [if_pos hq2]
          simp
        · rw [if_neg hq2]
          exact h.play_other_hand p hp q hq i hi
      · exact h.plays_disj
      · intro q hq
        exact getP_append_isSome (h.ready_sub q hq)
    · rw [if_neg hcap]
      exact h
  | some pl =>
    have hhand : handIds room pid = pl.hand.map (fun c => c.id) := by
      simp [handIds, handOf, hg]
    have hsame : ∀ q, handIds { room with
        players := setP room.players pid { pl with name := name },
        sockets := addS room.sockets pid } q = handIds room q := by
      intro q
      by_cases hq : q = pid
      · subst hq
        simp [handIds, handOf, getP_setP_self, hg]
      · simp [handIds, handOf, getP_setP_ne hq]
    refine ⟨?_, ?_, ?_, ?_, ?_, ?_, ?_, ?_, ?_⟩
    · intro q
      rw [hsame]
      exact h.hand_nodup q
    · intro q i hi
      rw [hsame] at hi
      exact h.hand_bound q i hi
    · intro p q hpq i hip hiq
      rw [hsame] at hip hiq
      exact h.hands_disj p q hpq i hip hiq
    · exact h.pend_outside
    · intro p hp
      exact getP_setP_isSome (h.play_pid p hp)
    · exact h.play_bound
    · intro p hp q hq i hi
      rw [hsame]
      exact h.play_other_hand p hp q hq i hi
    · exact h.plays_disj
    · intro q hq
      exact getP_setP_isSome (h.ready_sub q hq)

lemma inv_dealOp {room : Room} {pid : String} {n : Int} {sample : List (Rank × Suit)}
    (h : RoomInv room) : RoomInv (dealOp room pid n sample).1 := by
  rw [dealOp]
  cases getP room.players pid with
  | none => exact h
  | some _ =>
    by_cases h1 : n < 0
    · rw [if_pos h1]
      exact h
    · rw [if_neg h1]
      by_cases h2 : (52 : Int) < n
      · rw [if_pos h2]
        exact h
      · rw [if_neg h2]
        exact inv_dealCore h

lemma foldl_dealCore_inv (samples : String → List (Rank × Suit)) :
    ∀ pids : List String, ∀ r : Room, RoomInv r →
      RoomInv (pids.foldl (fun r q => dealCore r q (samples q)) r) := by
  intro pids
  induction pids with
  | nil => intro r hr; exact hr
  | cons q qs ih =>
    intro r hr
    rw [List.foldl_cons]
    exact ih _ (inv_dealCore hr)

lemma inv_dealAllOp {room : Room} {pid : String} {n : Int}
    {samples : String → List (Rank × Suit)}
    (h : RoomInv room) : RoomInv (dealAllOp room pid n samples).1 := by
  rw [dealAllOp]
  cases getP room.players pid with
  | none => exact h
  | some _ =>
    by_cases h1 : n < 0
    · rw [if_pos h1]
      exact h
    · rw [if_neg h1]
      by_cases h2 : (52 : Int) < n
      · rw [if_pos h2]
        exact h
      · rw [if_neg h2]
        exact foldl_dealCore_inv samples _ room h

lemma inv_addManualOp {room : Room} {pid : String} {rk : Rank} {st : Suit}
    (h : RoomInv room) : RoomInv (addManualOp room pid rk st).1 := by
  rw [addManualOp]
  cases getP room.players pid with
  | none => exact h
  | some _ => exact inv_dealCore h

lemma inv_clearHandOp {room : Room} {pid : String} (h : RoomInv room) :
    RoomInv (clearHandOp room pid) := by
  rw [clearHandOp]
  cases hg : getP room.players pid with
  | none => exact h
  | some pl => exact inv_setHandSub h hg (List.nil_sublist pl.hand)

lemma inv_removeSelectedOp {room : Room} {pid : String} {ids : List Nat}
    (h : RoomInv room) : RoomInv (removeSelectedOp room pid ids).1 := by
  rw [removeSelectedOp]
  cases hg : getP room.players pid with
  | none => exact h
  | some pl =>
    dsimp only
    by_cases h1 : ids = []
    · rw [if_pos h1]
      exact h
    · rw [if_neg h1]
      by_cases h2 : ∃ i ∈ ids, i ∈ usedCardIds room pid
      · rw [if_pos h2]
        exact h
      · rw [if_neg h2]
        by_cases h3 : (pl.hand.filter (fun c => ¬ c.id ∈ ids)).length = pl.hand.length
        · rw [if_pos h3]
          exact inv_setHandSub h hg (List.filter_sublist pl.hand)
        · rw [if_neg h3]
          exact inv_setHandSub h hg (List.filter_sublist pl.hand)

lemma inv_playSelectedOp {room : Room} {pid tbl : String} {ids : List Nat}
    (h : RoomInv room) : RoomInv (playSelectedOp room pid tbl ids).1 := by
  rw [playSelectedOp]
  cases hg : getP room.players pid with
  | none => exact h
  | some pl =>
    dsimp only
    by_cases h1 : ¬ tbl ∈ TABLES
    · rw [if_pos h1]
      exact h
    rw [if_neg h1]
    have htbl : tbl ∈ TABLES := not_not.1 h1
    by_cases h2 : ¬ (2 ≤ ids.length ∧ ids.length ≤ 5)
    · rw [if_pos h2]
      exact h
    rw [if_neg h2]
    by_cases h3 : ¬ (∀ i ∈ ids, (lookupCard pl.hand i).isSome)
    · rw [if_pos h3]
      exact h
    rw [if_neg h3]
    by_cases h4 : ∃ i ∈ ids, i ∈ usedCardIds room pid
    · rw [if_pos h4]
      exact h
    rw [if_neg h4]
    have hids_sub : ∀ i ∈ ids, i ∈ handIds room pid := by
      intro i hi
      have hsome := (not_not.1 h3) i hi
      rw [lookupCard_isSome_iff] at hsome
      simpa [handIds, handOf, hg] using hsome
    cases hev : evalStrict (ids.filterMap (fun i => (lookupCard pl.hand i).map (fun c => (c.rank, c.suit)))) with
    | error e => exact h
    | ok res =>
      obtain ⟨cat, tb2, label⟩ := res
      dsimp only
      set play : Play := ⟨pid, pl.name, tbl, ids,
        ids.filterMap (fun i => (lookupCard pl.hand i).map cardText),
        cat, tb2, label, 0, room.play_seq + 1⟩ with hplaydef
      have hperm := flatMap_update_perm TABLES room.pending tbl play TABLES_nodup htbl
      have hRplay : ∀ a ∈ allPlays room, ∀ i ∈ a.card_ids, i ∉ play.card_ids := by
        intro a ha i hia
        show ¬ i ∈ ids
        by_cases hap : a.pid = pid
        · intro hin
          exact h4 ⟨i, hin, mem_usedCardIds.2 ⟨a, ha, hap, hia⟩⟩
        · intro hin
          exact h.play_other_hand a ha pid (fun hc => hap hc.symm) i hia (hids_sub i hin)
      refine ⟨h.hand_nodup, h.hand_bound, h.hands_disj, ?_, ?_, ?_, ?_, ?_, ?_⟩
      · -- pend_outside
        intro t ht
        show (if t = tbl then room.pending t ++ [play] else room.pending t) = []
        rw [if_neg (fun hc : t = tbl => ht (hc ▸ htbl)), h.pend_outside t ht]
      · -- play_pid
        intro p hp
        have hp2 := (hperm.mem_iff).1 hp
        rw [List.mem_append, List.mem_singleton] at hp2
        rcases hp2 with hp2 | hp2
        · exact h.play_pid p hp2
        · subst hp2
          show (getP room.players pid).isSome
          rw [hg]
          rfl
      · -- play_bound
        intro p hp i hi
        have hp2 := (hperm.mem_iff).1 hp
        rw [List.mem_append, List.mem_singleton] at hp2
        rcases hp2 with hp2 | hp2
        · exact h.play_bound p hp2 i hi
        · subst hp2
          exact h.hand_bound pid i (hids_sub i hi)
      · -- play_other_hand
        intro p hp q hq i hi
        have hp2 := (hperm.mem_iff).1 hp
        rw [List.mem_append, List.mem_singleton] at hp2
        rcases hp2 with hp2 | hp2
        · exact h.play_other_hand p hp2 q hq i hi
        · subst hp2
          exact h.hands_disj pid q (fun hc => hq (hc.symm)) i (hids_sub i hi)
      · -- plays_disj
        have hsymm : ∀ {a b : Play}, (∀ i ∈ a.card_ids, i ∉ b.card_ids) →
            (∀ i ∈ b.card_ids, i ∉ a.card_ids) :=
          fun hab i hib hia => hab i hia hib
        refine (List.Perm.pairwise_iff hsymm hperm).2 ?_
        rw [List.pairwise_append]
        refine ⟨h.plays_disj, List.pairwise_singleton _ _, ?_⟩
        intro a ha b hb i hia
        rw [List.mem_singleton] at hb
        subst hb
        exact hRplay a ha i hia
      · -- ready_sub
        intro q hq
        exact h.ready_sub q (eraseS_subset q hq)

lemma inv_resolveRound {room : Room} (h : RoomInv room) :
    RoomInv (resolveRound room).1 := by
  rw [resolveRound]
  dsimp only
  have hplays : (TABLES.flatMap (fun (_ : String) => ([] : List Play))) = [] :=
    flatMap_nil_fun TABLES
  have hhand : ∀ q,
      handIds { room with
        round_no := room.round_no + 1,
        players := room.players.map (fun e =>
          (e.1, { e.2 with hand := e.2.hand.filter (fun c => ¬ c.id ∈ usedCardIds room e.1) })),
        battle_history := room.battle_history ++ [⟨room.round_no + 1, tablesOut room⟩],
        pending := fun _ => [],
        ready_pids := [] } q =
      ((handOf room q).filter (fun c => ¬ c.id ∈ usedCardIds room q)).map (fun c => c.id) := by
    intro q
    simp only [handIds, handOf]
    rw [getP_map_entry (fun a b => { b with hand := b.hand.filter (fun c => ¬ c.id ∈ usedCardIds room a) })]
    cases getP room.players q with
    | none => rfl
    | some pl => rfl
  have hsubmem : ∀ q i,
      i ∈ ((handOf room q).filter (fun c => ¬ c.id ∈ usedCardIds room q)).map (fun c => c.id) →
        i ∈ handIds room q := by
    intro q i hi
    rw [List.mem_map] at hi
    obtain ⟨c, hc, rfl⟩ := hi
    rw [List.mem_filter] at hc
    rw [handIds, List.mem_map]
    exact ⟨c, hc.1, rfl⟩
  refine ⟨?_, ?_, ?_, ?_, ?_, ?_, ?_, ?_, ?_⟩
  · intro q
    rw [hhand]
    exact List.Nodup.sublist ((List.filter_sublist (handOf room q)).map (fun c => c.id))
      (h.hand_nodup q)
  · intro q i hi
    rw [hhand] at hi
    exact h.hand_bound q i (hsubmem q i hi)
  · intro p q hpq i hip hiq
    rw [hhand] at hip hiq
    exact h.hands_disj p q hpq i (hsubmem p i hip) (hsubmem q i hiq)
  · intro t _
    rfl
  · intro p hp
    simp only [allPlays, flatMap_nil_fun] at hp
    simp at hp
  · intro p hp
    simp only [allPlays, flatMap_nil_fun] at hp
    simp at hp
  · intro p hp
    simp only [allPlays, flatMap_nil_fun] at hp
    simp at hp
  · simp only [allPlays, flatMap_nil_fun]
    exact List.Pairwise.nil
  · intro q hq
    simp at hq

lemma inv_maybeFinishRound {room : Room} (h : RoomInv room) :
    RoomInv (maybeFinishRound room).1 := by
  rw [maybeFinishRound]
  by_cases h1 : involvedPids room = []
  · rw [if_pos h1]
    exact h
  · rw [if_neg h1]
    by_cases h2 : ∀ q ∈ involvedPids room, q ∈ room.ready_pids
    · rw [if_pos h2]
      exact inv_resolveRound h
    · rw [if_neg h2]
      exact h

lemma inv_endRoundVoteOp {room : Room} {pid : String} (h : RoomInv room) :
    RoomInv (endRoundVoteOp room pid).1 := by
  rw [endRoundVoteOp]
  cases hg : getP room.players pid with
  | none => exact h
  | some pl =>
    apply inv_maybeFinishRound
    refine ⟨h.hand_nodup, h.hand_bound, h.hands_disj, h.pend_outside, h.play_pid,
      h.play_bound, h.play_other_hand, h.plays_disj, ?_⟩
    intro q hq
    rw [show ({ room with ready_pids := addS room.ready_pids pid } : Room).ready_pids
      = addS room.ready_pids pid from rfl, mem_addS] at hq
    rcases hq with hq | rfl
    · exact h.ready_sub q hq
    · rw [show getP ({ room with ready_pids := addS room.ready_pids q } : Room).players q
        = getP room.players q from rfl, hg]
      rfl

lemma inv_endRoundForceOp {room : Room} {pid : String} (h : RoomInv room) :
    RoomInv (endRoundForceOp room pid).1 := by
  rw [endRoundForceOp]
  cases getP room.players pid with
  | none => exact h
  | some _ => exact inv_resolveRound h

lemma inv_disconnectOp {room : Room} {pid : String} (h : RoomInv room) :
    RoomInv (disconnectOp room pid) :=
  ⟨h.hand_nodup, h.hand_bound, h.hands_disj, h.pend_outside, h.play_pid,
    h.play_bound, h.play_other_hand, h.plays_disj, h.ready_sub⟩

/-- Every reachable room state satisfies the invariant. -/
lemma reachable_inv : ∀ {room : Room}, Reachable room → RoomInv room := by
  intro room h
  induction h with
  | init rid => exact inv_init rid
  | join _ pid name ih => exact inv_joinOp ih
  | deal _ pid n sample ih => exact inv_dealOp ih
  | dealAll _ pid n samples ih => exact inv_dealAllOp ih
  | addManual _ pid rk st ih => exact inv_addManualOp ih
  | clearHand _ pid ih => exact inv_clearHandOp ih
  | removeSelected _ pid ids ih => exact inv_removeSelectedOp ih
  | playSelected _ pid tbl ids ih => exact inv_playSelectedOp ih
  | vote _ pid ih => exact inv_endRoundVoteOp ih
  | force _ pid ih => exact inv_endRoundForceOp ih
  | disconnect _ pid ih => exact inv_disconnectOp ih

lemma tupLt_irrefl : ∀ a : List Nat, tupLt a a = false := by
  intro a
  induction a with
  | nil => rfl
  | cons x xs ih => simp [tupLt, ih]

lemma tupLt_trans : ∀ {a b c : List Nat},
    tupLt a b = true → tupLt b c = true → tupLt a c = true := by
  intro a
  induction a with
  | nil =>
    intro b c hab hbc
    cases b with
    | nil => exact hbc
    | cons y ys =>
      cases c with
      | nil => simp [tupLt] at hbc
      | cons z zs => rfl
  | cons x xs ih =>
    intro b c hab hbc
    cases b with
    | nil => simp [tupLt] at hab
    | cons y ys =>
      cases c with
      | nil => simp [tupLt] at hbc
      | cons z zs =>
        rw [tupLt] at hab hbc ⊢
        by_cases h1 : x < y
        · rw [if_pos h1] at hab
          by_cases h2 : y < z
          · rw [if_pos (by omega)]
          · rw [if_neg h2] at hbc
            by_cases h3 : z < y
            · rw [if_pos h3] at hbc
              simp at hbc
            · rw [if_pos (by omega)]
        · rw [if_neg h1] at hab
          by_cases h1b : y < x
          · rw [if_pos h1b] at hab
            simp at hab
          · rw [if_neg h1b] at hab
            by_cases h2 : y < z
            · rw [if_pos (by omega)]
            · rw [if_neg h2] at hbc
              by_cases h3 : z < y
              · rw [if_pos h3] at hbc
                simp at hbc
              · rw [if_neg h3] at hbc
                rw [if_neg (by omega), if_neg (by omega)]
                exact ih hab hbc

lemma tupLt_connex : ∀ {a b : List Nat}, a ≠ b →
    tupLt a b = true ∨ tupLt b a = true := by
  intro a
  induction a with
  | nil =>
    intro b hne
    cases b with
    | nil => exact absurd rfl hne
    | cons y ys => exact Or.inl rfl
  | cons x xs ih =>
    intro b hne
    cases b with
    | nil => exact Or.inr rfl
    | cons y ys =>
      by_cases h1 : x < y
      · exact Or.inl (by rw [tupLt, if_pos h1])
      · by_cases h2 : y < x
        · exact Or.inr (by rw [tupLt, if_pos h2])
        · have hxy : x = y := by omega
          subst hxy
          have hne2 : xs ≠ ys := fun hc => hne (by rw [hc])
          rcases ih hne2 with h | h
          · exact Or.inl (by rw [tupLt, if_neg h1, if_neg h1]; exact h)
          · exact Or.inr (by rw [tupLt, if_neg h1, if_neg h1]; exact h)

lemma strLt_irrefl (a : Nat × List Nat) : strLt a a = false := by
  simp [strLt, tupLt_irrefl]

lemma strLt_trans {a b c : Nat × List Nat}
    (hab : strLt a b = true) (hbc : strLt b c = true) : strLt a c = true := by
  rw [strLt] at hab hbc ⊢
  by_cases h1 : a.1 < b.1
  · by_cases h2 : b.1 < c.1
    · rw [if_pos (by omega)]
    · rw [if_pos h1] at hab
      rw [if_neg h2] at hbc
      by_cases h3 : c.1 < b.1
      · rw [if_pos h3] at hbc
        simp at hbc
      · rw [if_pos (by omega)]
  · rw [if_neg h1] at hab
    by_cases h1b : b.1 < a.1
    · rw [if_pos h1b] at hab
      simp at hab
    · rw [if_neg h1b] at hab
      by_cases h2 : b.1 < c.1
      · rw [if_pos (by omega)]
      · rw [if_neg h2] at hbc
        by_cases h3 : c.1 < b.1
        · rw [if_pos h3] at hbc
          simp at hbc
        · rw [if_neg h3] at hbc
          rw [if_neg (by omega), if_neg (by omega)]
          exact tupLt_trans hab hbc

lemma strLt_connex {a b : Nat × List Nat} (hne : a ≠ b) :
    strLt a b = true ∨ strLt b a = true := by
  by_cases h1 : a.1 < b.1
  · exact Or.inl (by rw [strLt, if_pos h1])
  · by_cases h2 : b.1 < a.1
    · exact Or.inr (by rw [strLt, if_pos h2])
    · have hfst : a.1 = b.1 := by omega
      have hsnd : a.2 ≠ b.2 := by
        intro hc
        exact hne (Prod.ext hfst hc)
      rcases tupLt_connex hsnd with h | h
      · exact Or.inl (by rw [strLt, if_neg h1, if_neg (by omega)]; exact h)
      · exact Or.inr (by rw [strLt, if_neg (by omega), if_neg (by omega)]; exact h)

lemma foldl_strMax_spec :
    ∀ (rest : List (Nat × List Nat)) (s : Nat × List Nat),
      ((rest.foldl (fun acc x => if strLt acc x then x else acc) s) = s ∨
        (rest.foldl (fun acc x => if strLt acc x then x else acc) s) ∈ rest) ∧
      strLt (rest.foldl (fun acc x => if strLt acc x then x else acc) s) s = false ∧
      (∀ x ∈ rest, strLt (rest.foldl (fun acc x => if strLt acc x then x else acc) s) x = false) := by
  intro rest
  induction rest with
  | nil =>
    intro s
    exact ⟨Or.inl rfl, strLt_irrefl s, by simp⟩
  | cons x xs ih =>
    intro s
    rw [List.foldl_cons]
    by_cases hs : strLt s x = true
    · rw [if_pos hs]
      obtain ⟨hmem, hnotlt, hall⟩ := ih x
      have hnot_s : strLt (xs.foldl (fun acc y => if strLt acc y then y else acc) x) s = false := by
        by_contra hc
        have hc2 : strLt (xs.foldl (fun acc y => if strLt acc y then y else acc) x) s = true := by
          cases h2 : strLt (xs.foldl (fun acc y => if strLt acc y then y else acc) x) s
          · exact absurd h2 hc
          · rfl
        have := strLt_trans hc2 hs
        rw [this] at hnotlt
        simp at hnotlt
      refine ⟨?_, hnot_s, ?_⟩
      · rcases hmem with h | h
        · exact Or.inr (by rw [h]; simp)
        · exact Or.inr (by simp [h])
      · intro y hy
        rw [List.mem_cons] at hy
        rcases hy with rfl | hy
        · exact hnotlt
        · exact hall y hy
    · rw [if_neg hs]
      have hs_false : strLt s x = false := by
        cases h2 : strLt s x
        · rfl
        · exact absurd h2 hs
      obtain ⟨hmem, hnotlt, hall⟩ := ih s
      refine ⟨?_, hnotlt, ?_⟩
      · rcases hmem with h | h
        · exact Or.inl h
        · exact Or.inr (by simp [h])
      · intro y hy
        rw [List.mem_cons] at hy
        rcases hy with rfl | hy
        · -- the accumulator never dropped below s, and s is not below y
          by_contra hc
          have hc2 : strLt (xs.foldl (fun acc z => if strLt acc z then z else acc) s) y = true := by
            cases h2 : strLt (xs.foldl (fun acc z => if strLt acc z then z else acc) s) y
            · exact absurd h2 hc
            · rfl
          by_cases hsy : s = (xs.foldl (fun acc z => if strLt acc z then z else acc) s)
          · rw [← hsy] at hc2
            rw [hc2] at hs_false
            simp at hs_false
          · rcases strLt_connex hsy with h | h
            · have := strLt_trans h hc2
              rw [this] at hs_false
              simp at hs_false
            · rw [h] at hnotlt
              simp at hnotlt
        · exact hall y hy

lemma foldl_minSeq_spec :
    ∀ (rest : List Play) (b : Play),
      ((rest.foldl (fun acc q => if q.placed_seq < acc.placed_seq then q else acc) b) = b ∨
        (rest.foldl (fun acc q => if q.placed_seq < acc.placed_seq then q else acc) b) ∈ rest) ∧
      (rest.foldl (fun acc q => if q.placed_seq < acc.placed_seq then q else acc) b).placed_seq ≤ b.placed_seq ∧
      (∀ q ∈ rest, (rest.foldl (fun acc q => if q.placed_seq < acc.placed_seq then q else acc) b).placed_seq ≤ q.placed_seq) := by
  intro rest
  induction rest with
  | nil =>
    intro b
    exact ⟨Or.inl rfl, Nat.le_refl _, by simp⟩
  | cons x xs ih =>
    intro b
    rw [List.foldl_cons]
    by_cases hx : x.placed_seq < b.placed_seq
    · rw [if_pos hx]
      obtain ⟨hmem, hle, hall⟩ := ih x
      refine ⟨?_, by omega, ?_⟩
      · rcases hmem with h | h
        · exact Or.inr (by rw [h]; simp)
        · exact Or.inr (by simp [h])
      · intro q hq
        rw [List.mem_cons] at hq
        rcases hq with rfl | hq
        · exact hle
        · exact hall q hq
    · rw [if_neg hx]
      obtain ⟨hmem, hle, hall⟩ := ih b
      refine ⟨?_, hle, ?_⟩
      · rcases hmem with h | h
        · exact Or.inl h
        · exact Or.inr (by simp [h])
      · intro q hq
        rw [List.mem_cons] at hq
        rcases hq with rfl | hq
        · omega
        · exact hall q hq

lemma maxStrength_spec {plays : List Play} (hne : plays ≠ []) :
    ∃ best, maxStrength plays = some best ∧
      (∃ p ∈ plays, (p.cat, p.tb) = best) ∧
      (∀ p ∈ plays, strLt best (p.cat, p.tb) = false) := by
  rw [maxStrength]
  cases hm : plays.map (fun p => (p.cat, p.tb)) with
  | nil =>
    cases plays with
    | nil => exact absurd rfl hne
    | cons p ps => simp at hm
  | cons s rest =>
    obtain ⟨hmem, hnotlt, hall⟩ := foldl_strMax_spec rest s
    refine ⟨_, rfl, ?_, ?_⟩
    · have hin : (rest.foldl (fun acc x => if strLt acc x then x else acc) s) ∈
          plays.map (fun p => (p.cat, p.tb)) := by
        rw [hm]
        rcases hmem with h | h
        · rw [h]; simp
        · simp [h]
      rw [List.mem_map] at hin
      obtain ⟨p, hp, hpe⟩ := hin
      exact ⟨p, hp, hpe⟩
    · intro p hp
      have hin : (p.cat, p.tb) ∈ s :: rest := by
        rw [← hm, List.mem_map]
        exact ⟨p, hp, rfl⟩
      rw [List.mem_cons] at hin
      rcases hin with hin | hin
      · rw [hin]
        exact hnotlt
      · exact hall _ hin

/-- The winner returned by `pickWinner` for a non-empty play list: it is
one of the plays, no play strictly exceeds its `(category, tiebreak)`
strength, and among the plays attaining that strength it has the least
`placed_seq`. -/
lemma pickWinner_spec {plays : List Play} (hne : plays ≠ []) :
    ∃ w, pickWinner plays = some w ∧ w ∈ plays ∧
      (∀ p ∈ plays, strLt (w.cat, w.tb) (p.cat, p.tb) = false) ∧
      (∀ p ∈ plays, (p.cat, p.tb) ≠ (w.cat, w.tb) → strLt (p.cat, p.tb) (w.cat, w.tb) = true) ∧
      (∀ p ∈ plays, (p.cat, p.tb) = (w.cat, w.tb) → w.placed_seq ≤ p.placed_seq) := by
  obtain ⟨best, hbest, ⟨p0, hp0, hp0e⟩, hmax⟩ := maxStrength_spec hne
  rw [pickWinner, hbest]
  dsimp only
  have hp0f : p0 ∈ plays.filter (fun p => (p.cat, p.tb) == best) := by
    rw [List.mem_filter]
    exact ⟨hp0, by simp [hp0e]⟩
  cases hf : plays.filter (fun p => (p.cat, p.tb) == best) with
  | nil => rw [hf] at hp0f; simp at hp0f
  | cons b rest =>
    obtain ⟨hmem, hle, hall⟩ := foldl_minSeq_spec rest b
    set w := rest.foldl (fun acc q => if q.placed_seq < acc.placed_seq then q else acc) b with hw
    have hwf : w ∈ plays.filter (fun p => (p.cat, p.tb) == best) := by
      rw [hf]
      rcases hmem with h | h
      · rw [h]; simp
      · simp [h]
    rw [List.mem_filter] at hwf
    have hwbest : (w.cat, w.tb) = best := by simpa using hwf.2
    refine ⟨w, rfl, hwf.1, ?_, ?_, ?_⟩
    · intro p hp
      rw [hwbest]
      exact hmax p hp
    · intro p hp hpne
      have h1 := hmax p hp
      rw [hwbest] at hpne
      rcases strLt_connex (a := (p.cat, p.tb)) (b := best) (by exact hpne) with h | h
      · rw [hwbest]
        exact h
      · rw [h] at h1
        simp at h1
    · intro p hp hpe
      have hpf : p ∈ plays.filter (fun q => (q.cat, q.tb) == best) := by
        rw [List.mem_filter]
        refine ⟨hp, by simp [hpe, hwbest]⟩
      rw [hf, List.mem_cons] at hpf
      rcases hpf with rfl | hpf
      · exact hle
      · exact hall p hpf

/-- A concrete trace: fresh room "r". -/
def exRoom0 : Room := initRoom "r"

/-- Player "p" joins. -/
def exRoom1 : Room := (joinOp exRoom0 "p" "P").1

/-- "p" adds K♣ manually (card id 1). -/
def exRoom2 : Room := (addManualOp exRoom1 "p" .rK .clubs).1

/-- "p" adds K♦ manually (card id 2). -/
def exRoom3 : Room := (addManualOp exRoom2 "p" .rK .diamonds).1

/-- "p" plays the pair of kings (ids 1,2) on table МІДТАУН. -/
def exRoom4 : Room := (playSelectedOp exRoom3 "p" "МІДТАУН" [1, 2]).1

/-- "p" clears their hand while the play is still pending. -/
def exRoom5 : Room := clearHandOp exRoom4 "p"

/-- From `exRoom1`: "p" votes ready (no plays pending). -/
def exVote1 : Room := (endRoundVoteOp exRoom1 "p").1

/-- ... and then disconnects. -/
def exRoom6 : Room := disconnectOp exVote1 "p"

lemma exRoom4_reachable : Reachable exRoom4 :=
  Reachable.playSelected
    (Reachable.addManual
      (Reachable.addManual
        (Reachable.join (Reachable.init "r") "p" "P") "p" .rK .clubs) "p" .rK .diamonds)
    "p" "МІДТАУН" [1, 2]

lemma exRoom5_reachable : Reachable exRoom5 :=
  Reachable.clearHand exRoom4_reachable "p"

lemma exRoom6_reachable : Reachable exRoom6 :=
  Reachable.disconnect
    (Reachable.vote (Reachable.join (Reachable.init "r") "p" "P") "p") "p"

/-- C1 counterexample: in the reachable state `exRoom4`, card id 1 sits in
player "p"'s hand AND in a pending play at the same time, refuting
"a Card id appears in at most one player's hand OR at most one
currently-pending Play, never both at once"; in particular, after the
successful PlaySelected that built this state, the submitted ids are
still in the submitting player's hand. -/
theorem C1_counterexample :
    Reachable exRoom4 ∧ (1 : Nat) ∈ handIds exRoom4 "p" ∧
      ∃ p ∈ allPlays exRoom4, (1 : Nat) ∈ p.card_ids :=
  ⟨exRoom4_reachable, by decide, by decide⟩

/-- C1 (amended): in every reachable room state a card id appears in at
most one player's hand (hands are duplicate-free and pairwise disjoint)
and in at most one pending play (pending plays are pairwise id-disjoint);
but an id referenced by a pending play remains in its owner's hand until
resolution, so "never both" does not hold. -/
theorem C1_amended (room : Room) (h : Reachable room) :
    (∀ p q, p ≠ q → ∀ i, i ∈ handIds room p → i ∉ handIds room q) ∧
    (∀ pid, (handIds room pid).Nodup) ∧
    (allPlays room).Pairwise (fun a b => ∀ i ∈ a.card_ids, i ∉ b.card_ids) := by
  have hi := reachable_inv h
  exact ⟨hi.hands_disj, hi.hand_nodup, hi.plays_disj⟩

/-- C1 witness: the amended statement instantiated at the concrete
reachable state `exRoom4`. -/
theorem C1_amended_witness :
    (handIds exRoom4 "p").Nodup ∧
    (allPlays exRoom4).Pairwise (fun a b => ∀ i ∈ a.card_ids, i ∉ b.card_ids) :=
  ⟨(C1_amended exRoom4 exRoom4_reachable).2.1 "p",
   (C1_amended exRoom4 exRoom4_reachable).2.2⟩

/-- C2 counterexample: in the reachable state `exRoom5` (hand cleared
after playing ids 1,2), the round's plays reference ids 1 and 2 but the
only player's hand is empty before resolution and empty after it, so the
set of ids removed by ResolveRound (∅) differs from the set of played
ids ({1,2}). -/
theorem C2_counterexample :
    Reachable exRoom5 ∧
    usedCardIds exRoom5 "p" = [1, 2] ∧
    exRoom5.players.map (fun e => e.1) = ["p"] ∧
    handIds exRoom5 "p" = [] ∧
    handIds (resolveRound exRoom5).1 "p" = [] :=
  ⟨exRoom5_reachable, by decide, by decide, by decide, by decide⟩

/-- C2 (amended): for every round resolution and every player, the hand
after ResolveRound consists of exactly those held cards whose id is not
referenced by any pending play of that player: every played id still held
is removed, and no id that was not played is removed.  (Full equality
"removed = played" additionally needs every played id to still be in its
owner's hand, which ClearHand can break.) -/
theorem C2_amended (room : Room) (pid : String) :
    (∀ c, c ∈ handOf (resolveRound room).1 pid ↔
        (c ∈ handOf room pid ∧ c.id ∉ usedCardIds room pid)) ∧
    (∀ c ∈ handOf room pid, c.id ∈ usedCardIds room pid →
        c ∉ handOf (resolveRound room).1 pid) ∧
    (∀ c ∈ handOf room pid, c.id ∉ usedCardIds room pid →
        c ∈ handOf (resolveRound room).1 pid) ∧
    (∀ i, i ∈ usedCardIds room pid ↔ ∃ p ∈ allPlays room, p.pid = pid ∧ i ∈ p.card_ids) := by
  have hfil : handOf (resolveRound room).1 pid =
      (handOf room pid).filter (fun c => ¬ c.id ∈ usedCardIds room pid) := by
    rw [resolveRound]
    simp only [handOf]
    rw [getP_map_entry (fun a b => { b with hand := b.hand.filter (fun c => ¬ c.id ∈ usedCardIds room a) })]
    cases getP room.players pid with
    | none => rfl
    | some pl => rfl
  refine ⟨?_, ?_, ?_, fun i => mem_usedCardIds⟩
  · intro c
    rw [hfil, List.mem_filter]
    simp
  · intro c hc hu
    rw [hfil, List.mem_filter]
    simp only [not_and, decide_not]
    intro _
    simp [hu]
  · intro c hc hu
    rw [hfil, List.mem_filter]
    exact ⟨hc, by simp [hu]⟩

/-- C3: ResolveRound, in one atomic transition, leaves every table's
pending list empty, empties the readiness set, increments the round
counter by exactly one, and appends exactly one round summary (carrying
the new round number) to the battle history. -/
theorem C3_resolve_clears (room : Room) :
    (∀ t, (resolveRound room).1.pending t = []) ∧
    (resolveRound room).1.ready_pids = [] ∧
    (resolveRound room).1.round_no = room.round_no + 1 ∧
    (resolveRound room).1.battle_history = room.battle_history ++ [(resolveRound room).2] ∧
    (resolveRound room).2.round = room.round_no + 1 :=
  ⟨fun _ => rfl, rfl, rfl, rfl, rfl⟩

/-- C6 counterexample: reachable state `exRoom6` — player "p" voted ready
and then disconnected; "p" is still in `ready_pids` although no socket
binding for "p" exists, refuting `ready_pids ⊆ connected pids`. -/
theorem C6_counterexample :
    Reachable exRoom6 ∧ "p" ∈ exRoom6.ready_pids ∧ "p" ∉ exRoom6.sockets :=
  ⟨exRoom6_reachable, by decide, by decide⟩

/-- C6 (amended): in every reachable room state, `ready_pids` is a subset
of the joined players' pids (votes are only recorded for existing players
and resolution clears them); disconnection, however, does not revoke
readiness, so `ready_pids` is not contained in the connected pids. -/
theorem C6_amended (room : Room) (h : Reachable room) :
    ∀ q ∈ room.ready_pids, (getP room.players q).isSome :=
  (reachable_inv h).ready_sub

/-- C6 witness: the amended statement instantiated at `exRoom6`. -/
theorem C6_amended_witness :
    (getP exRoom6.players "p").isSome ∧ "p" ∈ exRoom6.ready_pids :=
  ⟨C6_amended exRoom6 exRoom6_reachable "p" (by decide), by decide⟩

/-- C7: a readiness vote by a joined player resolves the round exactly
when the set of players owning at least one pending play is non-empty and
each of them is ready once the vote is counted; players without plays
never appear in that set, and with no pending plays a vote never
resolves. -/
theorem C7_vote_triggers_iff (room : Room) (pid : String) (pl : Player)
    (hg : getP room.players pid = some pl) :
    ((endRoundVoteOp room pid).2.isSome ↔
      (involvedPids room ≠ [] ∧ ∀ q ∈ involvedPids room, q ∈ addS room.ready_pids pid)) ∧
    (∀ q, q ∈ involvedPids room ↔ ∃ p ∈ allPlays room, p.pid = q) := by
  refine ⟨?_, fun q => mem_involvedPids⟩
  rw [endRoundVoteOp, hg]
  dsimp only
  rw [maybeFinishRound]
  rw [show involvedPids { room with ready_pids := addS room.ready_pids pid } =
    involvedPids room from rfl]
  rw [show ({ room with ready_pids := addS room.ready_pids pid } : Room).ready_pids =
    addS room.ready_pids pid from rfl]
  by_cases h1 : involvedPids room = []
  · rw [if_pos h1]
    simp [h1]
  · rw [if_neg h1]
    by_cases h2 : ∀ q ∈ involvedPids room, q ∈ addS room.ready_pids pid
    · rw [if_pos h2]
      simp only [Option.isSome_some, true_iff]
      exact ⟨h1, h2⟩
    · rw [if_neg h2]
      simp only [Option.isSome_none, Bool.false_eq_true, false_iff, not_and]
      intro _
      exact h2

/-- C7 witness: in `exRoom4` (one pending play by "p"), "p"'s vote
resolves the round. -/
theorem C7_witness : (endRoundVoteOp exRoom4 "p").2.isSome :=
  ((C7_vote_triggers_iff exRoom4 "p"
      ⟨"p", "P", [⟨1, .rK, .clubs⟩, ⟨2, .rK, .diamonds⟩], []⟩ (by decide)).1).2
    ⟨by decide, by decide⟩

/-- C4: for every table with at least one pending play, ResolveRound's
summary records the winner computed by `pickWinner`: a play of that table
whose `(category, tiebreak)` is maximal under the Python tuple order
(no play is strictly greater, every play of different strength is
strictly smaller), and whose `placed_seq` is least among the plays
attaining that maximal strength. -/
theorem C4_resolve_winner (room : Room) (t : String) (ht : t ∈ TABLES)
    (hne : room.pending t ≠ []) :
    ∃ w, pickWinner (room.pending t) = some w ∧
      (⟨t, room.pending t, w⟩ : TableRec) ∈ (resolveRound room).2.tables ∧
      w ∈ room.pending t ∧
      (∀ p ∈ room.pending t, strLt (w.cat, w.tb) (p.cat, p.tb) = false) ∧
      (∀ p ∈ room.pending t, (p.cat, p.tb) ≠ (w.cat, w.tb) →
        strLt (p.cat, p.tb) (w.cat, w.tb) = true) ∧
      (∀ p ∈ room.pending t, (p.cat, p.tb) = (w.cat, w.tb) →
        w.placed_seq ≤ p.placed_seq) := by
  obtain ⟨w, hw, hmem, hmax, hstrict, hmin⟩ := pickWinner_spec hne
  refine ⟨w, hw, ?_, hmem, hmax, hstrict, hmin⟩
  show _ ∈ tablesOut room
  rw [tablesOut, List.mem_filterMap]
  exact ⟨t, ht, by rw [hw]⟩

/-- C4 witness: the winner statement instantiated at the concrete state
`exRoom4` and its one occupied table. -/
theorem C4_witness :
    ∃ w, pickWinner (exRoom4.pending "МІДТАУН") = some w ∧
      (⟨"МІДТАУН", exRoom4.pending "МІДТАУН", w⟩ : TableRec) ∈ (resolveRound exRoom4).2.tables ∧
      w ∈ exRoom4.pending "МІДТАУН" ∧
      (∀ p ∈ exRoom4.pending "МІДТАУН", strLt (w.cat, w.tb) (p.cat, p.tb) = false) ∧
      (∀ p ∈ exRoom4.pending "МІДТАУН", (p.cat, p.tb) ≠ (w.cat, w.tb) →
        strLt (p.cat, p.tb) (w.cat, w.tb) = true) ∧
      (∀ p ∈ exRoom4.pending "МІДТАУН", (p.cat, p.tb) = (w.cat, w.tb) →
        w.placed_seq ≤ p.placed_seq) :=
  C4_resolve_winner exRoom4 "МІДТАУН" (by decide) (by decide)

/-- C5: PlaySelected validation and commit, for a joined player: a table
outside the fixed set, an id count outside [2,5], an id missing from the
hand, or an id already used by one of the same player's pending plays
each produce an error; every erroring outcome leaves the room unchanged;
and a successful submission bumps `play_seq` by one, appends exactly one
play carrying the fresh sequence number to the chosen table, leaves all
other tables, all hands and the allocator unchanged, and removes the
submitter from `ready_pids`. -/
theorem C5_playSelected_spec (room : Room) (pid tbl : String) (ids : List Nat)
    (pl : Player) (hg : getP room.players pid = some pl) :
    (tbl ∉ TABLES → playSelectedOp room pid tbl ids = (room, some Err.badTable)) ∧
    (tbl ∈ TABLES → ¬ (2 ≤ ids.length ∧ ids.length ≤ 5) →
      playSelectedOp room pid tbl ids = (room, some Err.badSize)) ∧
    (tbl ∈ TABLES → (2 ≤ ids.length ∧ ids.length ≤ 5) →
      ¬ (∀ i ∈ ids, i ∈ handIds room pid) →
      playSelectedOp room pid tbl ids = (room, some Err.noSuchCards)) ∧
    (tbl ∈ TABLES → (2 ≤ ids.length ∧ ids.length ≤ 5) →
      (∀ i ∈ ids, i ∈ handIds room pid) →
      (∃ i ∈ ids, i ∈ usedCardIds room pid) →
      playSelectedOp room pid tbl ids = (room, some Err.cardsUsed)) ∧
    ((playSelectedOp room pid tbl ids).2.isSome → (playSelectedOp room pid tbl ids).1 = room) ∧
    (∀ room2, playSelectedOp room pid tbl ids = (room2, none) →
      room2.play_seq = room.play_seq + 1 ∧
      room2.players = room.players ∧
      room2.next_card_id = room.next_card_id ∧
      room2.ready_pids = eraseS room.ready_pids pid ∧
      (∀ u, u ≠ tbl → room2.pending u = room.pending u) ∧
      ∃ play, room2.pending tbl = room.pending tbl ++ [play] ∧
        play.pid = pid ∧ play.card_ids = ids ∧ play.placed_seq = room.play_seq + 1) := by
  have hhand : handIds room pid = pl.hand.map (fun c => c.id) := by
    simp [handIds, handOf, hg]
  have hlook : (∀ i ∈ ids, (lookupCard pl.hand i).isSome) ↔ (∀ i ∈ ids, i ∈ handIds room pid) := by
    constructor
    · intro hx i hi
      rw [hhand, ← lookupCard_isSome_iff]
      exact hx i hi
    · intro hx i hi
      rw [lookupCard_isSome_iff, ← hhand]
      exact hx i hi
  rw [playSelectedOp, hg]
  dsimp only
  by_cases h1 : ¬ tbl ∈ TABLES
  · rw [if_pos h1]
    refine ⟨fun _ => rfl, ?_, ?_, ?_, fun _ => rfl, ?_⟩
    · intro ht _
      exact absurd ht h1
    · intro ht _ _
      exact absurd ht h1
    · intro ht _ _ _
      exact absurd ht h1
    · intro room2 hr2
      exact absurd (congrArg Prod.snd hr2) (by simp)
  rw [if_neg h1]
  by_cases h2 : ¬ (2 ≤ ids.length ∧ ids.length ≤ 5)
  · rw [if_pos h2]
    refine ⟨fun ht => absurd (not_not.1 h1) ht, fun _ _ => rfl, ?_, ?_, fun _ => rfl, ?_⟩
    · intro _ hsz _
      exact absurd hsz h2
    · intro _ hsz _ _
      exact absurd hsz h2
    · intro room2 hr2
      exact absurd (congrArg Prod.snd hr2) (by simp)
  rw [if_neg h2]
  by_cases h3 : ¬ (∀ i ∈ ids, (lookupCard pl.hand i).isSome)
  · rw [if_pos h3]
    refine ⟨fun ht => absurd (not_not.1 h1) ht, fun _ hsz => absurd (not_not.1 h2) hsz,
      fun _ _ _ => rfl, ?_, fun _ => rfl, ?_⟩
    · intro _ _ hin _
      exact absurd (hlook.2 hin) h3
    · intro room2 hr2
      exact absurd (congrArg Prod.snd hr2) (by simp)
  rw [if_neg h3]
  by_cases h4 : ∃ i ∈ ids, i ∈ usedCardIds room pid
  · rw [if_pos h4]
    refine ⟨fun ht => absurd (not_not.1 h1) ht, fun _ hsz => absurd (not_not.1 h2) hsz,
      fun _ _ hin => absurd (hlook.1 (not_not.1 h3)) hin, fun _ _ _ _ => rfl, fun _ => rfl, ?_⟩
    intro room2 hr2
    exact absurd (congrArg Prod.snd hr2) (by simp)
  rw [if_neg h4]
  cases hev : evalStrict (ids.filterMap (fun i => (lookupCard pl.hand i).map (fun c => (c.rank, c.suit)))) with
  | error e =>
    refine ⟨fun ht => absurd (not_not.1 h1) ht, fun _ hsz => absurd (not_not.1 h2) hsz,
      fun _ _ hin => absurd (hlook.1 (not_not.1 h3)) hin, fun _ _ _ hused => absurd hused h4,
      fun _ => rfl, ?_⟩
    intro room2 hr2
    exact absurd (congrArg Prod.snd hr2) (by simp)
  | ok res =>
    obtain ⟨cat, tb2, label⟩ := res
    dsimp only
    refine ⟨fun ht => absurd (not_not.1 h1) ht, fun _ hsz => absurd (not_not.1 h2) hsz,
      fun _ _ hin => absurd (hlook.1 (not_not.1 h3)) hin, fun _ _ _ hused => absurd hused h4,
      ?_, ?_⟩
    · intro hc
      simp at hc
    · intro room2 hr2
      have hr2' := congrArg Prod.fst hr2
      dsimp only at hr2'
      rw [← hr2']
      refine ⟨rfl, rfl, rfl, rfl, ?_, ?_⟩
      · intro u hu
        show (if u = tbl then room.pending u ++ [_] else room.pending u) = room.pending u
        rw [if_neg hu]
      · refine ⟨⟨pid, pl.name, tbl, ids,
          ids.filterMap (fun i => (lookupCard pl.hand i).map cardText),
          cat, tb2, label, 0, room.play_seq + 1⟩, ?_, rfl, rfl, rfl⟩
        show (if tbl = tbl then room.pending tbl ++ [_] else room.pending tbl) = _
        rw [if_pos rfl]

/-- C5 witness: at `exRoom3` a submission to a non-existent table fails
with `BadTable` and leaves the room unchanged; the same submission to a
real table succeeds. -/
theorem C5_witness :
    playSelectedOp exRoom3 "p" "НЕМАЄ" [1, 2] = (exRoom3, some Err.badTable) ∧
    (playSelectedOp exRoom3 "p" "МІДТАУН" [1, 2]).2 = none :=
  ⟨(C5_playSelected_spec exRoom3 "p" "НЕМАЄ" [1, 2]
      ⟨"p", "P", [⟨1, .rK, .clubs⟩, ⟨2, .rK, .diamonds⟩], []⟩ (by decide)).1 (by decide),
   by decide⟩

/-- C8: the wheel A-2-3-4-5 evaluates to the 5-card straight category with
tiebreak key 5 (not 14); in general, any non-empty duplicate-free list of
values forming a consecutive run is a straight keyed by its top value;
any permutation of the wheel value set {2,3,4,5,14} is a straight keyed
by 5; and these two cases (with the wheel possible only at length 5) are
the only ways `straight_high` reports a straight. -/
theorem C8_straight_wheel :
    evalStrict [(Rank.rA, Suit.spades), (Rank.r2, Suit.clubs), (Rank.r3, Suit.diamonds),
        (Rank.r4, Suit.hearts), (Rank.r5, Suit.spades)] =
      Except.ok (5, [5], "Стріт") ∧
    (∀ (vs : List Nat) (lo : Nat), vs ≠ [] → vs.Nodup →
      (∀ x, x ∈ vs ↔ lo ≤ x ∧ x < lo + vs.length) →
      straight_high vs = some (lo + vs.length - 1)) ∧
    (∀ vs : List Nat, vs.Nodup → (∀ x, x ∈ vs ↔ x ∈ ([2, 3, 4, 5, 14] : List Nat)) →
      straight_high vs = some 5) ∧
    (∀ (vs : List Nat) (k : Nat), straight_high vs = some k → vs.Nodup ∧
      ((∃ lo, (∀ x, x ∈ vs ↔ lo ≤ x ∧ x < lo + vs.length) ∧ k = lo + vs.length - 1) ∨
        (vs.length = 5 ∧ (∀ x, x ∈ vs ↔ x ∈ ([2, 3, 4, 5, 14] : List Nat)) ∧ k = 5))) :=
  ⟨by rfl,
   fun _ _ hne hnd hmem => straight_high_of_consec hne hnd hmem,
   fun _ hnd hmem => straight_high_of_wheel hnd hmem,
   fun _ _ h => straight_high_eq_some h⟩

/-- C8 witness: the consecutive-run clause applied at `[7, 8]` and the
wheel clause applied at `[14, 2, 3, 4, 5]`. -/
theorem C8_witness :
    straight_high [7, 8] = some 8 ∧ straight_high [14, 2, 3, 4, 5] = some 5 := by
  constructor
  · have h := C8_straight_wheel.2.1 [7, 8] 7 (by decide) (by decide) ?_
    · simpa using h
    · intro x
      rw [List.mem_cons, List.mem_singleton]
      show x = 7 ∨ x = 8 ↔ 7 ≤ x ∧ x < 9
      omega
  · exact C8_straight_wheel.2.2.1 [14, 2, 3, 4, 5] (by decide)
      (by intro x; simp only [List.mem_cons]; tauto)

set_option maxHeartbeats 4000000 in
/-- C9: `eval_strict` is supposed to return a result for every 2–5 card
input, and its `InvalidCombinationSize` error exactly characterises sizes
outside [2,5]; but the 4-card two-pair input K♣ K♦ Q♣ Q♦ — a size inside
the range — makes the code compute `max()` over the (empty) set of
count-1 ranks and raise, instead of returning the `TWO_PAIR` result its
own branch intends. -/
theorem C9_eval_two_pair_crash :
    (2 ≤ ([(Rank.rK, Suit.clubs), (Rank.rK, Suit.diamonds), (Rank.rQ, Suit.clubs),
        (Rank.rQ, Suit.diamonds)] : List (Rank × Suit)).length ∧
      ([(Rank.rK, Suit.clubs), (Rank.rK, Suit.diamonds), (Rank.rQ, Suit.clubs),
        (Rank.rQ, Suit.diamonds)] : List (Rank × Suit)).length ≤ 5) ∧
    evalStrict [(Rank.rK, Suit.clubs), (Rank.rK, Suit.diamonds), (Rank.rQ, Suit.clubs),
      (Rank.rQ, Suit.diamonds)] = Except.error EvalErr.emptyMax ∧
    (∀ cards : List (Rank × Suit),
      evalStrict cards = Except.error EvalErr.badSize ↔
        ¬ (2 ≤ cards.length ∧ cards.length ≤ 5)) := by
  refine ⟨by decide, by rfl, ?_⟩
  intro cards
  by_cases hsz : 2 ≤ cards.length ∧ cards.length ≤ 5
  · rw [evalStrict, if_neg (not_not_intro hsz)]
    refine ⟨?_, fun hfal => absurd hsz hfal⟩
    intro hc
    exfalso
    dsimp only at hc
    split at hc
    · simp at hc
    · next itemsv i0 rest heq =>
        clear heq
        by_cases hn2 : cards.length = 2
        · rw [if_pos hn2] at hc
          split at hc <;> simp at hc
        · rw [if_neg hn2] at hc
          by_cases hn3 : cards.length = 3
          · rw [if_pos hn3] at hc
            iterate 6 (all_goals (try split at hc))
            all_goals simp at hc
          · rw [if_neg hn3] at hc
            by_cases hn4 : cards.length = 4
            · rw [if_pos hn4] at hc
              iterate 8 (all_goals (try split at hc))
              all_goals simp at hc
            · rw [if_neg hn4] at hc
              iterate 10 (all_goals (try split at hc))
              all_goals simp at hc
  · rw [evalStrict, if_pos hsz]
    simp [hsz]

/-- The full 52-card deck, `[(r, s) for r in RANKS for s in SUITS]`. -/
def deck : List (Rank × Suit) := RANKS.flatMap (fun r => SUITS.map (fun s => (r, s)))

/-- The contract of `random.sample(pop, n)` (Python standard library,
external collaborator): the output selects `n` pairwise-distinct
positions of the population. -/
def SampleFrom (pop : List (Rank × Suit)) (n : Nat) (out : List (Rank × Suit)) : Prop :=
  ∃ idxs : List Nat, idxs.Nodup ∧ idxs.length = n ∧ (∀ j ∈ idxs, j < pop.length) ∧
    out = idxs.map (fun j => pop.getD j (Rank.r2, Suit.clubs))

lemma deck_nodup : deck.Nodup := by decide

lemma sampleFrom_deck {n : Nat} {out : List (Rank × Suit)}
    (h : SampleFrom deck n out) : out.length = n ∧ out.Nodup := by
  obtain ⟨idxs, hnd, hlen, hbound, rfl⟩ := h
  refine ⟨by simp [hlen], ?_⟩
  refine List.Nodup.map_on ?_ hnd
  intro j1 h1 j2 h2 heq
  have hb1 := hbound j1 h1
  have hb2 := hbound j2 h2
  rw [List.getD_eq_getElem deck _ hb1, List.getD_eq_getElem deck _ hb2] at heq
  exact (List.Nodup.getElem_inj_iff deck_nodup).1 heq

/-- C10: for a joined player, `deal` and `deal_all` fail — leaving the
room unchanged — exactly when the requested count is negative or exceeds
52; `Deal(pid, 60)` in particular fails; and on success the issued batch
is appended to the hand and, by the `random.sample` contract over the
duplicate-free 52-card deck, contains exactly `n` cards with no repeated
`(rank, suit)` pair inside the batch. -/
theorem C10_deal_bounds (room : Room) (pid : String) (n : Int)
    (sample : List (Rank × Suit)) (samples : String → List (Rank × Suit))
    (pl : Player) (hg : getP room.players pid = some pl) :
    (n < 0 → dealOp room pid n sample = (room, some Err.dealNeg) ∧
              dealAllOp room pid n samples = (room, some Err.dealNeg)) ∧
    (52 < n → dealOp room pid n sample = (room, some Err.dealTooBig) ∧
              dealAllOp room pid n samples = (room, some Err.dealTooBig)) ∧
    ((dealOp room pid n sample).2.isSome ↔ (n < 0 ∨ 52 < n)) ∧
    ((dealAllOp room pid n samples).2.isSome ↔ (n < 0 ∨ 52 < n)) ∧
    (0 ≤ n → n ≤ 52 →
      handOf (dealOp room pid n sample).1 pid = pl.hand ++ mkFresh room.next_card_id sample ∧
      (mkFresh room.next_card_id sample).map (fun c => (c.rank, c.suit)) = sample) ∧
    (∀ k out, SampleFrom deck k out → out.length = k ∧ out.Nodup) := by
  refine ⟨?_, ?_, ?_, ?_, ?_, fun k out h => sampleFrom_deck h⟩
  · intro hneg
    constructor
    · rw [dealOp, hg]
      dsimp only
      rw [if_pos hneg]
    · rw [dealAllOp, hg]
      dsimp only
      rw [if_pos hneg]
  · intro hbig
    constructor
    · rw [dealOp, hg]
      dsimp only
      rw [if_neg (by omega), if_pos hbig]
    · rw [dealAllOp, hg]
      dsimp only
      rw [if_neg (by omega), if_pos hbig]
  · rw [dealOp, hg]
    dsimp only
    by_cases h1 : n < 0
    · rw [if_pos h1]
      simp [h1]
    · rw [if_neg h1]
      by_cases h2 : (52 : Int) < n
      · rw [if_pos h2]
        simp [h2]
      · rw [if_neg h2]
        simp [h1, h2]
  · rw [dealAllOp, hg]
    dsimp only
    by_cases h1 : n < 0
    · rw [if_pos h1]
      simp [h1]
    · rw [if_neg h1]
      by_cases h2 : (52 : Int) < n
      · rw [if_pos h2]
        simp [h2]
      · rw [if_neg h2]
        simp [h1, h2]
  · intro hge hle
    constructor
    · rw [dealOp, hg]
      dsimp only
      rw [if_neg (by omega), if_neg (by omega)]
      show handOf (dealCore room pid sample) pid = _
      rw [dealCore, hg]
      simp [handOf, getP_setP_self]
    · exact mkFresh_faces _ _

/-- C10 witness: `Deal("p", 60)` fails with the over-size error at the
concrete room `exRoom1`, and a concrete 2-card draw from the deck has the
promised size and uniqueness. -/
theorem C10_witness :
    dealOp exRoom1 "p" 60 [] = (exRoom1, some Err.dealTooBig) ∧
    ([(Rank.r2, Suit.clubs), (Rank.r3, Suit.clubs)] : List (Rank × Suit)).length = 2 ∧
    ([(Rank.r2, Suit.clubs), (Rank.r3, Suit.clubs)] : List (Rank × Suit)).Nodup := by
  have h := C10_deal_bounds exRoom1 "p" 60 [] (fun _ => []) ⟨"p", "P", [], []⟩ (by decide)
  refine ⟨(h.2.1 (by decide)).1, ?_, ?_⟩
  · have h2 := (h.2.2.2.2.2 2 [(Rank.r2, Suit.clubs), (Rank.r3, Suit.clubs)]
      ⟨[0, 4], by decide, by decide, by decide, by decide⟩)
    exact h2.1
  · have h2 := (h.2.2.2.2.2 2 [(Rank.r2, Suit.clubs), (Rank.r3, Suit.clubs)]
      ⟨[0, 4], by decide, by decide, by decide, by decide⟩)
    exact h2.2

end MCP
